import Mathlib

/-!
# Text glyph atlas and rendering subsystem of `uwp/main.cpp`

A shallow embedding of the font loading, atlas packing, text layout and text
measurement code of `src/uwp/main.cpp`, together with theorems about it.

Conventions of the embedding:

* `float` values are read as exact rationals (`ℚ`);
* `int` values are mathematical integers (`Int`); the quantities involved are
  pixel sizes and cursor positions, far from the 32-bit range;
* a byte of a `std::string` is a `Fin 256`;
* OpenGL calls are not modelled: `renderText` returns the quads it hands to
  `glDrawElements`, in order, together with the final pen position, and the
  font texture is represented by what was uploaded into it;
* a function that writes into a pixel buffer (`drawChar`, the copy loop of
  `loadTTFFont`) returns the writes it makes, in order.
-/

namespace UwpGl

/-! ## Data model -/

/-- Glyph information (`struct Glyph`). -/
structure Glyph where
  x0 : ℚ
  y0 : ℚ
  x1 : ℚ
  y1 : ℚ
  xoff : ℚ
  yoff : ℚ
  advance : ℚ
  width : Int
  height : Int
deriving DecidableEq

/-- The glyph table `std::map<unsigned char, Glyph>`: an association list with
at most one entry per key (kept so by `GlyphTable.assign`). -/
abbrev GlyphTable := List (Fin 256 × Glyph)

/-- Lookup `glyphs.find(c)`; `none` stands for `glyphs.end()`. -/
def GlyphTable.find : GlyphTable → Fin 256 → Option Glyph
  | [], _ => none
  | (k, g) :: rest, c => if k = c then some g else GlyphTable.find rest c

/-- Assignment `glyphs[c] = g`: inserts the key or replaces its value. -/
def GlyphTable.assign (m : GlyphTable) (c : Fin 256) (g : Glyph) : GlyphTable :=
  (c, g) :: m.filter (fun p => !(p.1 == c))

/-- One run of the copy loop of `loadTTFFont`: the bitmap of character `code`,
of size `width` x `height`, copied with its top-left corner at `(x, y)`. -/
structure Blit where
  code : Nat
  x : Int
  y : Int
  width : Int
  height : Int
deriving DecidableEq

/-- What the font texture of the renderer holds. `unset` is the initial
`fontTexture(0)`; `outlineAtlas` is the 512x512 atlas uploaded by `loadTTFFont`,
given by the copy-loop runs that filled it; `fallbackAtlas` is the 128x64 grid
uploaded by `createBitmapFontTexture`. -/
inductive FontTexture where
  | unset
  | outlineAtlas (blits : List Blit)
  | fallbackAtlas
deriving DecidableEq

/-- The fields of `struct TextRenderer` that font loading and text layout read
or write (the OpenGL object names `vao`, `vbo`, `ebo`, `program` and the window
size are left out). -/
structure TextRenderer where
  fontTexture : FontTexture
  fontTextureWidth : Int
  fontTextureHeight : Int
  fontSize : ℚ
  glyphs : GlyphTable
  fontScale : ℚ
deriving DecidableEq

/-- The constructor `TextRenderer()`. -/
def TextRenderer.fresh : TextRenderer :=
  { fontTexture := FontTexture.unset
    fontTextureWidth := 0
    fontTextureHeight := 0
    fontSize := 32
    glyphs := []
    fontScale := 1 }

/-- One draw call of `renderText`: the 16 floats of `vertices[]` (four vertices
of position and texture coordinate) and the 6 entries of `indices[]`. -/
structure Quad where
  vertices : List ℚ
  indices : List Nat
deriving DecidableEq

/-! ## Text layout: `renderText` and `measureTextWidth` -/

/-- The range test `c < 32 || c >= 127` on an `unsigned char`. -/
def outOfRange (c : Fin 256) : Bool :=
  decide (c.val < 32) || decide (127 ≤ c.val)

/-- The value of a byte read into a `char`, which is signed on the target of
this program. (Were it unsigned, the range test below would reject the same
bytes: see `outOfRangeChar_eq`.) -/
def toChar (c : Fin 256) : Int :=
  if c.val < 128 then (c.val : Int) else (c.val : Int) - 256

/-- The range test `c < 32 || c >= 127` on a `char`, as in the fallback loop. -/
def outOfRangeChar (c : Fin 256) : Bool :=
  decide (toChar c < 32) || decide (127 ≤ toChar c)

/-- The vertex and index arrays built for one glyph in the outline path. -/
def outlineQuad (glyph : Glyph) (currentX y scale : ℚ) : Quad :=
  let charX := currentX + glyph.xoff * scale
  let charY := y + glyph.yoff * scale
  let charWidth := (glyph.width : ℚ) * scale
  let charHeight := (glyph.height : ℚ) * scale
  { vertices :=
      [charX, charY + charHeight, glyph.x0, glyph.y1,
       charX + charWidth, charY + charHeight, glyph.x1, glyph.y1,
       charX + charWidth, charY, glyph.x1, glyph.y0,
       charX, charY, glyph.x0, glyph.y0]
    indices := [0, 1, 2, 2, 3, 0] }

/-- The vertex and index arrays built for one character in the fallback path. -/
def fallbackQuad (c : Fin 256) (currentX y scale : ℚ) : Quad :=
  let charWidth := 8 * scale
  let charHeight := 8 * scale
  let charsPerRow : Int := 16
  let numRows : Int := 8
  let charIndex := toChar c - 32
  let texRow := Int.tdiv charIndex charsPerRow
  let texCol := Int.tmod charIndex charsPerRow
  let charX := currentX
  let charY := y
  let texLeft := (texCol : ℚ) / (charsPerRow : ℚ)
  let texRight := ((texCol + 1 : Int) : ℚ) / (charsPerRow : ℚ)
  let texTop := (texRow : ℚ) / (numRows : ℚ)
  let texBottom := ((texRow + 1 : Int) : ℚ) / (numRows : ℚ)
  { vertices :=
      [charX, charY + charHeight, texLeft, texBottom,
       charX + charWidth, charY + charHeight, texRight, texBottom,
       charX + charWidth, charY, texRight, texTop,
       charX, charY, texLeft, texTop]
    indices := [0, 1, 2, 2, 3, 0] }

/-- The loop of the outline path of `renderText` over the remaining characters,
from pen position `currentX`: the quads drawn and the final `currentX`. -/
def renderOutlineLoop (glyphs : GlyphTable) (y scale : ℚ) :
    List (Fin 256) → ℚ → List Quad × ℚ
  | [], currentX => ([], currentX)
  | c :: rest, currentX =>
    if outOfRange c then renderOutlineLoop glyphs y scale rest currentX
    else
      match glyphs.find c with
      | none => renderOutlineLoop glyphs y scale rest currentX
      | some glyph =>
        let r := renderOutlineLoop glyphs y scale rest (currentX + glyph.advance * scale)
        (outlineQuad glyph currentX y scale :: r.1, r.2)

/-- The loop of the fallback path of `renderText`. -/
def renderFallbackLoop (y scale : ℚ) : List (Fin 256) → ℚ → List Quad × ℚ
  | [], currentX => ([], currentX)
  | c :: rest, currentX =>
    if outOfRangeChar c then renderFallbackLoop y scale rest currentX
    else
      let charWidth := 8 * scale
      let charSpacing := 2 * scale
      let r := renderFallbackLoop y scale rest (currentX + (charWidth + charSpacing))
      (fallbackQuad c currentX y scale :: r.1, r.2)

/-- Embedding of `renderText`: the quads drawn, in order, and the final pen
position `currentX` (the origin `x` when the text is empty and the function
returns at once). -/
def renderText (text : List (Fin 256)) (x y scale : ℚ) (renderer : TextRenderer) :
    List Quad × ℚ :=
  if text.isEmpty then ([], x)
  else if !renderer.glyphs.isEmpty then
    renderOutlineLoop renderer.glyphs y scale text x
  else
    renderFallbackLoop y scale text x

/-- The loop of the outline branch of `measureTextWidth`, from width `w`. -/
def measureOutlineLoop (glyphs : GlyphTable) (scale : ℚ) : List (Fin 256) → ℚ → ℚ
  | [], w => w
  | c :: rest, w =>
    if outOfRange c then measureOutlineLoop glyphs scale rest w
    else
      match glyphs.find c with
      | some glyph => measureOutlineLoop glyphs scale rest (w + glyph.advance * scale)
      | none => measureOutlineLoop glyphs scale rest w

/-- Embedding of `measureTextWidth`. -/
def measureTextWidth (text : List (Fin 256)) (scale : ℚ) (renderer : TextRenderer) : ℚ :=
  if !renderer.glyphs.isEmpty then
    measureOutlineLoop renderer.glyphs scale text 0
  else
    let charWidth := 8 * scale
    let charSpacing := 2 * scale
    (charWidth + charSpacing) * (text.length : ℚ)

/-! ## Font loading: `loadTTFFont`, `createBitmapFontTexture`, `initTextRenderer` -/

/-- What `stbtt_GetGlyphBitmap` reports for a glyph when it returns a bitmap:
the pixel size of the bitmap and its offset from the pen origin. -/
structure GlyphBitmap where
  width : Int
  height : Int
  xoff : Int
  yoff : Int
deriving DecidableEq

/-- The outline font decoder (`stb_truetype.h`), as far as `loadTTFFont` uses
it. `scaleForPixelHeight` is `stbtt_ScaleForPixelHeight`; `glyphAdvance c` is
the advance `stbtt_GetGlyphHMetrics` reports for the glyph of code `c`;
`glyphBitmap scale c` is the result of `stbtt_GetGlyphBitmap` for that glyph,
`none` standing for the null pointer. -/
structure Font where
  scaleForPixelHeight : ℚ → ℚ
  glyphAdvance : Nat → Int
  glyphBitmap : ℚ → Nat → Option GlyphBitmap

/-- What `loadTTFFont` finds at a font path. -/
inductive FontFile where
  | cannotOpen
  | cannotRead
  | notAFont
  | font (f : Font)

/-- The constant `atlasWidth` of `loadTTFFont`. -/
def atlasWidth : Int := 512

/-- The constant `atlasHeight` of `loadTTFFont`. -/
def atlasHeight : Int := 512

/-- The conversion `(int)` of a `float`: truncation toward zero. -/
def truncToInt (q : ℚ) : Int :=
  if 0 ≤ q then Int.floor q else Int.ceil q

/-- The row height `(int)(fontSize * 1.2f)`, the factor read as `6 / 5`. -/
def lineHeightOf (fontSize : ℚ) : Int :=
  truncToInt (fontSize * (6 / 5))

/-- The variables the glyph loop of `loadTTFFont` updates: the cursor `x`, `y`,
the glyph table of the renderer, and the atlas buffer, given by the runs of
the copy loop made so far. -/
structure PackState where
  x : Int
  y : Int
  glyphs : GlyphTable
  blits : List Blit

/-- The key `(unsigned char)c`. -/
def toUChar (c : Nat) : Fin 256 :=
  ⟨c % 256, Nat.mod_lt c (by decide)⟩

/-- The body of the glyph loop of `loadTTFFont` for code `c` with the metrics
and bitmap the decoder returned. The flag is `false` when the body executes
`return false`. -/
def packGlyph (lineHeight : Int) (scale : ℚ) (c : Nat) (advance : Int)
    (bitmap : Option GlyphBitmap) (s : PackState) : Bool × PackState :=
  match bitmap with
  | none => (true, s)
  | some b =>
    let wrap : Bool := decide (s.x + b.width + 1 > atlasWidth)
    let x := if wrap then 0 else s.x
    let y := if wrap then s.y + lineHeight else s.y
    if wrap && decide (y + b.height > atlasHeight) then
      (false, { s with x := x, y := y })
    else
      let glyph : Glyph :=
        { x0 := (x : ℚ) / (atlasWidth : ℚ)
          y0 := (y : ℚ) / (atlasHeight : ℚ)
          x1 := ((x + b.width : Int) : ℚ) / (atlasWidth : ℚ)
          y1 := ((y + b.height : Int) : ℚ) / (atlasHeight : ℚ)
          xoff := (b.xoff : ℚ)
          yoff := (b.yoff : ℚ)
          advance := (advance : ℚ) * scale
          width := b.width
          height := b.height }
      (true,
        { x := x + b.width + 1
          y := y
          glyphs := s.glyphs.assign (toUChar c) glyph
          blits := s.blits ++ [{ code := c, x := x, y := y, width := b.width, height := b.height }] })

/-- The glyph loop of `loadTTFFont` over the remaining codes, each given with
what the decoder returned for it. -/
def packLoop (lineHeight : Int) (scale : ℚ) :
    List (Nat × Int × Option GlyphBitmap) → PackState → Bool × PackState
  | [], s => (true, s)
  | (c, advance, bitmap) :: rest, s =>
    match packGlyph lineHeight scale c advance bitmap s with
    | (false, s1) => (false, s1)
    | (true, s1) => packLoop lineHeight scale rest s1

/-- The codes `c = 32 .. 126` of the glyph loop with what the decoder returns
for each. -/
def glyphInputs (f : Font) (scale : ℚ) : List (Nat × Int × Option GlyphBitmap) :=
  (List.range 95).map (fun i => (32 + i, f.glyphAdvance (32 + i), f.glyphBitmap scale (32 + i)))

/-- The atlas writes of one run of the copy loop, in order: pairs
`(atlasIdx, glyphIdx)` for the assignments `atlasData[atlasIdx] = bitmap[glyphIdx]`
that pass the bounds test. -/
def copyLoop (b : Blit) : List (Int × Int) :=
  (List.range b.height.toNat).flatMap (fun (gy : Nat) =>
    (List.range b.width.toNat).filterMap (fun (gx : Nat) =>
      let atlasX := b.x + (gx : Int)
      let atlasY := b.y + (gy : Int)
      if atlasX < atlasWidth ∧ atlasY < atlasHeight then
        some (atlasY * atlasWidth + atlasX, (gy : Int) * b.width + (gx : Int))
      else none))

/-- Embedding of `loadTTFFont`: the returned flag and the renderer afterwards. -/
def loadTTFFont (file : FontFile) (renderer : TextRenderer) (fontSize : ℚ) :
    Bool × TextRenderer :=
  match file with
  | FontFile.cannotOpen => (false, renderer)
  | FontFile.cannotRead => (false, renderer)
  | FontFile.notAFont => (false, renderer)
  | FontFile.font f =>
    let scale := f.scaleForPixelHeight fontSize
    let renderer1 := { renderer with fontScale := scale, fontSize := fontSize }
    let lineHeight := lineHeightOf fontSize
    match packLoop lineHeight scale (glyphInputs f scale)
        { x := 0, y := 0, glyphs := renderer1.glyphs, blits := [] } with
    | (false, s) => (false, { renderer1 with glyphs := s.glyphs })
    | (true, s) =>
      (true,
        { renderer1 with
          glyphs := s.glyphs
          fontTexture := FontTexture.outlineAtlas s.blits
          fontTextureWidth := atlasWidth
          fontTextureHeight := atlasHeight })

/-- Embedding of `createBitmapFontTexture(&renderer.fontTexture)`: the fallback
grid atlas becomes the font texture; nothing else of the renderer is touched. -/
def createBitmapFontTexture (renderer : TextRenderer) : TextRenderer :=
  { renderer with fontTexture := FontTexture.fallbackAtlas }

/-- The candidate loop of `initTextRenderer`. A candidate is `none` when
`testFile.good()` is false, and otherwise what `loadTTFFont` finds at the path.
Returns `fontLoaded` and the renderer. -/
def candidateLoop : List (Option FontFile) → TextRenderer → Bool × TextRenderer
  | [], renderer => (false, renderer)
  | none :: rest, renderer => candidateLoop rest renderer
  | some file :: rest, renderer =>
    match loadTTFFont file renderer 32 with
    | (true, r) => (true, r)
    | (false, r) => candidateLoop rest r

/-- Embedding of the font part of `initTextRenderer`, for the candidate paths
in the order of `fontPaths` (three in the source). -/
def initTextRenderer (candidates : List (Option FontFile)) (renderer : TextRenderer) :
    TextRenderer :=
  match candidateLoop candidates renderer with
  | (true, r) => r
  | (false, r) => createBitmapFontTexture r

/-- The copy-loop runs held by a font texture (none unless it is an outline
atlas). -/
def atlasBlits : FontTexture → List Blit
  | FontTexture.outlineAtlas blits => blits
  | _ => []

/-! ## Reference notions for the layout theorems -/

/-- A code of the supported printable range 32..126. -/
def inRange (c : Fin 256) : Bool :=
  decide (32 ≤ c.val) && decide (c.val ≤ 126)

/-- The characters the specification says are drawn: codes in 32..126 that, in
the outline path (non-empty glyph table), have a glyph table entry. -/
def drawn (renderer : TextRenderer) (c : Fin 256) : Bool :=
  inRange c && (renderer.glyphs.isEmpty || (renderer.glyphs.find c).isSome)

/-- The pen advance of a drawn character: the scaled glyph advance in the
outline path, the fixed pitch `(8 + 2) * scale` in the fallback path. -/
def advanceOf (renderer : TextRenderer) (scale : ℚ) (c : Fin 256) : ℚ :=
  if renderer.glyphs.isEmpty then (8 + 2) * scale
  else
    match renderer.glyphs.find c with
    | some glyph => glyph.advance * scale
    | none => 0

/-- The quad of a drawn character at pen position `px`. -/
def quadOf (renderer : TextRenderer) (y scale : ℚ) (c : Fin 256) (px : ℚ) : Quad :=
  if renderer.glyphs.isEmpty then fallbackQuad c px y scale
  else
    match renderer.glyphs.find c with
    | some glyph => outlineQuad glyph px y scale
    | none => { vertices := [], indices := [] }

/-- Layout as the specification words it, for a string in which every
character is drawn: exactly one quad per character, in string order, the pen
moving by the advance of each character. -/
def oneQuadPerChar (renderer : TextRenderer) (y scale : ℚ) : List (Fin 256) → ℚ → List Quad
  | [], _ => []
  | c :: rest, px =>
    quadOf renderer y scale c px ::
      oneQuadPerChar renderer y scale rest (px + advanceOf renderer scale c)

/-! ## Concrete renderers and fonts used in the evaluations -/

/-- A renderer in the outline state whose glyph table has entries for the
letters A and B only. -/
def rendererAB : TextRenderer :=
  { fontTexture := FontTexture.outlineAtlas []
    fontTextureWidth := 512
    fontTextureHeight := 512
    fontSize := 32
    glyphs :=
      [(65, { x0 := 0, y0 := 0, x1 := 1 / 32, y1 := 3 / 64, xoff := 1, yoff := -24,
              advance := 19, width := 16, height := 24 }),
       (66, { x0 := 17 / 512, y0 := 0, x1 := 33 / 512, y1 := 3 / 64, xoff := 2, yoff := -24,
              advance := 19, width := 16, height := 24 })]
    fontScale := 1 / 64 }

/-- The renderer `main` passes to `initTextRenderer` at 96 dpi: a fresh
`TextRenderer` with `fontSize = 24.0f * dpiScale`, `dpiScale = 1`. -/
def rendererMain : TextRenderer :=
  { TextRenderer.fresh with fontSize := 24 }

/-- A font whose glyph for code 32 is 511 pixels wide and whose glyph for code
33 is 600 pixels high; no other code has a bitmap. Packing it at size 32 places
the first glyph and then overflows. -/
def fontA : Font :=
  { scaleForPixelHeight := fun h => h / 2048
    glyphAdvance := fun _ => 1229
    glyphBitmap := fun _ c =>
      if c = 32 then some ⟨511, 10, 0, -10⟩
      else if c = 33 then some ⟨10, 600, 0, -600⟩
      else none }

/-- A font with a bitmap for the letter A only (none for the space, code 32). -/
def fontB : Font :=
  { scaleForPixelHeight := fun h => h / 2048
    glyphAdvance := fun _ => 1229
    glyphBitmap := fun _ c => if c = 65 then some ⟨16, 24, 1, -24⟩ else none }

/-- A font for which the rasterizer returns no bitmap for any code 32..126. -/
def fontBlank : Font :=
  { scaleForPixelHeight := fun h => h / 2048
    glyphAdvance := fun _ => 1229
    glyphBitmap := fun _ _ => none }

/-- A font whose glyphs for codes 32..44 are 511 pixels wide (one per row),
followed by two glyphs 100 pixels wide, of heights 10 and 30; every height is
below the row height 38 of font size 32. -/
def fontRows : Font :=
  { scaleForPixelHeight := fun h => h / 2048
    glyphAdvance := fun _ => 1229
    glyphBitmap := fun _ c =>
      if c < 45 then some ⟨511, 10, 0, -10⟩
      else if c = 45 then some ⟨100, 10, 0, -10⟩
      else if c = 46 then some ⟨100, 30, 0, -30⟩
      else none }

/-- A font whose only bitmap, for code 32, is 600 pixels wide: wider than the
atlas. -/
def fontWide : Font :=
  { scaleForPixelHeight := fun h => h / 2048
    glyphAdvance := fun _ => 1229
    glyphBitmap := fun _ c => if c = 32 then some ⟨600, 20, 0, -20⟩ else none }

/-! ## The fallback glyph drawer: `setPixel`, `drawChar`, and the grid of
`createBitmapFontTexture` -/

/-- The index `idx` at which `setPixel` stores 255 in `fontData`. -/
def setPixel (textureWidth startX startY x y : Int) : Int :=
  let pixelX := startX + x
  let pixelY := startY + y
  pixelY * textureWidth + pixelX

/-- A loop `for (int v = lo; v < hi; v++) body`, collecting what each round
of the body emits, in order. -/
def forRange {α : Type} (lo hi : Int) (body : Int → List α) : List α :=
  (List.range (hi - lo).toNat).flatMap (fun (i : Nat) => body (lo + (i : Int)))

/-- The body of `drawChar` for the character `c`: the arguments `(x, y)` of
the `setPixel` calls it makes, in order. `self` stands for the recursive call
`drawChar(fontData, textureWidth, startX, startY, c - 32)` of the lowercase
case; every other argument of `setPixel` is passed on unchanged. -/
def drawCharBody (self : Fin 256 → List (Int × Int)) (c : Fin 256) : List (Int × Int) :=
  -- case space
  if c.val = 32 then []
  -- case 0 .. 9
  else if 48 ≤ c.val ∧ c.val ≤ 57 then
    if c.val = 48 then
      forRange 1 7 (fun y => [(1, y), (6, y)]) ++
      forRange 1 7 (fun x => [(x, 1), (x, 6)])
    else if c.val = 49 then
      forRange 1 7 (fun y => [(3, y)]) ++ [(2, 1), (2, 6)]
    else if c.val = 50 then
      forRange 1 7 (fun x => [(x, 1), (x, 4), (x, 6)]) ++ [(6, 2), (6, 3), (1, 4), (1, 5)]
    else if c.val = 51 then
      forRange 1 7 (fun x => [(x, 1), (x, 4), (x, 6)]) ++
      forRange 2 4 (fun y => [(6, y)]) ++
      forRange 4 6 (fun y => [(6, y)])
    else if c.val = 52 then
      forRange 1 5 (fun y => [(1, y)]) ++
      forRange 1 7 (fun x => [(x, 4)]) ++
      forRange 1 7 (fun y => [(6, y)])
    else if c.val = 53 then
      forRange 1 7 (fun x => [(x, 1), (x, 3), (x, 6)]) ++ [(1, 2)] ++
      forRange 4 6 (fun y => [(6, y)])
    else if c.val = 54 then
      forRange 1 7 (fun y => [(1, y)]) ++
      forRange 1 7 (fun x => [(x, 1), (x, 4), (x, 6)]) ++
      forRange 4 6 (fun y => [(6, y)])
    else if c.val = 55 then
      forRange 1 7 (fun x => [(x, 1)]) ++
      forRange 2 7 (fun y => [(6, y)])
    else if c.val = 56 then
      forRange 1 7 (fun y => [(1, y), (6, y)]) ++
      forRange 1 7 (fun x => [(x, 1), (x, 4), (x, 6)])
    else if c.val = 57 then
      forRange 1 5 (fun y => [(6, y)]) ++
      forRange 1 7 (fun x => [(x, 1), (x, 4), (x, 6)]) ++
      forRange 4 6 (fun y => [(1, y)])
    else []
  -- case A .. Z
  else if 65 ≤ c.val ∧ c.val ≤ 90 then
    if 65 ≤ c.val ∧ c.val ≤ 90 then
      if c.val = 65 then
        forRange 2 7 (fun y => [(1, y), (6, y)]) ++
        forRange 1 7 (fun x => [(x, 1)]) ++
        forRange 2 6 (fun x => [(x, 4)])
      else if c.val = 66 then
        forRange 1 7 (fun y => [(1, y)]) ++
        forRange 1 6 (fun x => [(x, 1), (x, 4), (x, 6)]) ++ [(6, 2), (6, 3), (6, 5)]
      else if c.val = 67 then
        forRange 2 6 (fun y => [(1, y)]) ++
        forRange 2 6 (fun x => [(x, 1), (x, 6)])
      else if c.val = 68 then
        forRange 1 7 (fun y => [(1, y)]) ++
        forRange 2 6 (fun y => [(6, y)]) ++
        [(2, 1), (3, 1), (4, 1), (5, 1), (2, 6), (3, 6), (4, 6), (5, 6)]
      else if c.val = 69 then
        forRange 1 7 (fun y => [(1, y)]) ++
        forRange 1 7 (fun x => [(x, 1), (x, 4), (x, 6)])
      else if c.val = 71 then
        forRange 2 6 (fun y => [(1, y)]) ++
        forRange 2 6 (fun x => [(x, 1), (x, 6)]) ++ [(6, 4), (6, 5), (5, 4)]
      else if c.val = 72 then
        forRange 1 7 (fun y => [(1, y), (6, y)]) ++
        forRange 1 7 (fun x => [(x, 4)])
      else if c.val = 73 then
        forRange 1 7 (fun y => [(3, y)]) ++
        forRange 1 7 (fun x => [(x, 1), (x, 6)])
      else if c.val = 76 then
        forRange 1 7 (fun y => [(1, y)]) ++
        forRange 1 7 (fun x => [(x, 6)])
      else if c.val = 77 then
        forRange 1 7 (fun y => [(1, y), (6, y)]) ++ [(2, 2), (3, 3), (4, 3), (5, 2)]
      else if c.val = 78 then
        forRange 1 7 (fun y => [(1, y), (6, y)]) ++ [(2, 2), (3, 3), (4, 4), (5, 5)]
      else if c.val = 79 then
        forRange 2 6 (fun y => [(1, y), (6, y)]) ++
        forRange 2 6 (fun x => [(x, 1), (x, 6)])
      else if c.val = 80 then
        forRange 1 7 (fun y => [(1, y)]) ++
        forRange 1 6 (fun x => [(x, 1), (x, 4)]) ++ [(6, 2), (6, 3)]
      else if c.val = 82 then
        forRange 1 7 (fun y => [(1, y)]) ++
        forRange 1 6 (fun x => [(x, 1), (x, 4)]) ++ [(6, 2), (6, 3), (5, 5), (6, 6)]
      else if c.val = 83 then
        forRange 1 7 (fun x => [(x, 1), (x, 4), (x, 6)]) ++ [(1, 2), (1, 3), (6, 5)]
      else if c.val = 84 then
        forRange 1 7 (fun x => [(x, 1)]) ++
        forRange 1 7 (fun y => [(3, y)])
      else if c.val = 85 then
        forRange 1 6 (fun y => [(1, y), (6, y)]) ++
        forRange 1 7 (fun x => [(x, 6)])
      else if c.val = 86 then
        forRange 1 5 (fun y => [(1, y), (6, y)]) ++ [(2, 5), (5, 5), (3, 6), (4, 6)]
      else if c.val = 88 then
        forRange 0 6 (fun i => [(1 + i, 1 + i), (6 - i, 1 + i)])
      else if c.val = 89 then
        [(3, 1), (4, 1)] ++
        forRange 2 5 (fun y => [(2, y), (5, y)]) ++
        forRange 4 7 (fun y => [(3, y)]) ++ [(4, 4)]
      else
        forRange 1 7 (fun y => [(1, y), (6, y)]) ++
        forRange 1 7 (fun x => [(x, 1), (x, 6)])
    else []
  -- case a .. z
  else if 97 ≤ c.val ∧ c.val ≤ 122 then self (toUChar (c.val - 32))
  -- case colon
  else if c.val = 58 then [(3, 2), (3, 5)]
  -- case full stop
  else if c.val = 46 then [(3, 6), (4, 6)]
  -- case minus
  else if c.val = 45 then forRange 2 6 (fun x => [(x, 3)])
  -- case equals
  else if c.val = 61 then forRange 1 7 (fun x => [(x, 2), (x, 5)])
  -- case slash
  else if c.val = 47 then forRange 0 6 (fun i => [(5 - i, 1 + i)])
  -- case opening parenthesis
  else if c.val = 40 then forRange 2 6 (fun y => [(2, y)]) ++ [(3, 1), (3, 6)]
  -- case closing parenthesis
  else if c.val = 41 then forRange 2 6 (fun y => [(5, y)]) ++ [(4, 1), (4, 6)]
  -- default
  else
    forRange 1 7 (fun y => [(1, y), (6, y)]) ++
    forRange 1 7 (fun x => [(x, 1), (x, 6)])

/-- The arguments `(x, y)` of the `setPixel` calls of `drawChar` for the
character `c`, in order. The recursion of `drawChar` is unrolled twice: the
lowercase case calls `drawChar` on an uppercase letter, which does not recurse
(`drawCharCalls_unfold` is the recursion equation of the source). -/
def drawCharCalls (c : Fin 256) : List (Int × Int) :=
  drawCharBody (drawCharBody (fun _ => [])) c

/-- Embedding of `drawChar`: the indices of `fontData` set to 255, in order. -/
def drawChar (textureWidth startX startY : Int) (c : Fin 256) : List Int :=
  (drawCharCalls c).map (fun p => setPixel textureWidth startX startY p.1 p.2)

/-- The cell origin `(startX, startY)` that the loop of
`createBitmapFontTexture` computes for the code `c`. -/
def cellOrigin (c : Int) : Int × Int :=
  let charWidth : Int := 8
  let charHeight : Int := 8
  let charsPerRow : Int := 16
  let charIndex := c - 32
  let row := Int.tdiv charIndex charsPerRow
  let col := Int.tmod charIndex charsPerRow
  (col * charWidth, row * charHeight)

/-- The drawing loop of `createBitmapFontTexture`: the indices of the 128x64
buffer `fontData` set to 255, in order, for the codes 32..126. -/
def fontDataWrites : List Int :=
  (List.range 95).flatMap (fun (i : Nat) =>
    let c : Nat := 32 + i
    drawChar 128 (cellOrigin c).1 (cellOrigin c).2 (toUChar c))

/-- The generic box placeholder of the specification: the outline of the
rectangle with corners `(1, 1)` and `(6, 6)`. -/
def onBoxOutline (p : Int × Int) : Bool :=
  decide (1 ≤ p.1) && decide (p.1 ≤ 6) && decide (1 ≤ p.2) && decide (p.2 ≤ 6) &&
    (decide (p.1 = 1) || decide (p.1 = 6) || decide (p.2 = 1) || decide (p.2 = 6))

/-- The cell offsets `(x, y)`, `0 <= x, y <= 7`, of an 8x8 cell, row by row. -/
def cellOffsets : List (Int × Int) :=
  (List.range 8).flatMap (fun (y : Nat) => (List.range 8).map (fun (x : Nat) => ((x : Int), (y : Int))))

/-- Two characters are drawn with the same pixels: every offset of the cell is
set by both or by neither. -/
def samePixels (a b : List (Int × Int)) : Bool :=
  cellOffsets.all (fun p => decide (p ∈ a) == decide (p ∈ b))

/-- The character is drawn as the box placeholder: within the cell, exactly
the offsets on the box outline are set. -/
def drawsBox (c : Fin 256) : Bool :=
  cellOffsets.all (fun p => decide (p ∈ drawCharCalls c) == onBoxOutline p)

/-! ## The candidate loop with its calls recorded (for C16) -/

/-- The calls of `loadTTFFont` made by the candidate loop of
`initTextRenderer`, in order: the position `i` of the candidate in `fontPaths`
(counted from `start`) and the flag the call returned. The loop is that of
`candidateLoop`, which keeps the renderer instead. -/
def candidateAttempts : List (Option FontFile) → Nat → TextRenderer → List (Nat × Bool)
  | [], _, _ => []
  | none :: rest, start, renderer => candidateAttempts rest (start + 1) renderer
  | some file :: rest, start, renderer =>
    match loadTTFFont file renderer 32 with
    | (true, _) => [(start, true)]
    | (false, r) => (start, false) :: candidateAttempts rest (start + 1) r

/-- The candidates whose file exists, in list order: the position of each and
the flag `loadTTFFont` returns for its file at size 32. -/
def existingCandidates : List (Option FontFile) → Nat → List (Nat × Bool)
  | [], _ => []
  | none :: rest, start => existingCandidates rest (start + 1)
  | some file :: rest, start =>
    (start, (loadTTFFont file TextRenderer.fresh 32).1) :: existingCandidates rest (start + 1)

/-- A list of attempts cut after its first success. -/
def upToFirstSuccess : List (Nat × Bool) → List (Nat × Bool)
  | [] => []
  | (i, true) :: _ => [(i, true)]
  | (i, false) :: rest => (i, false) :: upToFirstSuccess rest

/-- The renderer after calls of `loadTTFFont`, at size 32, on the candidates at
the given positions of the list, made in the given order (a position without an
existing file makes no call). -/
def replayLoads (candidates : List (Option FontFile)) : List Nat → TextRenderer → TextRenderer
  | [], renderer => renderer
  | i :: rest, renderer =>
    match candidates[i]? with
    | some (some file) => replayLoads candidates rest (loadTTFFont file renderer 32).2
    | _ => replayLoads candidates rest renderer

/-! ## Reference notions for the packing theorems (C19) -/

/-- How a placed glyph follows the one placed before it: in the same row,
right after its bitmap and one padding column, or at the start of the next
row. -/
def followsInRow (lineHeight : Int) (b1 b2 : Blit) : Prop :=
  (b2.y = b1.y ∧ b2.x = b1.x + b1.width + 1) ∨ (b2.x = 0 ∧ b2.y = b1.y + lineHeight)

/-! ## Reference notions for outline-path measurement (C18) -/

/-- The sum of `advance(c) * scale` over the characters `c` of the text with
`32 <= c <= 126` that have a glyph table entry. -/
def outlineAdvanceSum (glyphs : GlyphTable) (scale : ℚ) (text : List (Fin 256)) : ℚ :=
  (text.filterMap (fun c =>
    if 32 ≤ c.val ∧ c.val ≤ 126 then (glyphs.find c).map (fun g => g.advance * scale)
    else none)).sum

/-- The `Glyph` that the glyph loop of `loadTTFFont` records for a bitmap `b`
placed at `(x, y)` (the record built in `packGlyph`, named for the lemmas). -/
def recordedGlyph (scale : ℚ) (advance : Int) (b : GlyphBitmap) (x y : Int) : Glyph :=
  { x0 := (x : ℚ) / (atlasWidth : ℚ)
    y0 := (y : ℚ) / (atlasHeight : ℚ)
    x1 := ((x + b.width : Int) : ℚ) / (atlasWidth : ℚ)
    y1 := ((y + b.height : Int) : ℚ) / (atlasHeight : ℚ)
    xoff := (b.xoff : ℚ)
    yoff := (b.yoff : ℚ)
    advance := (advance : ℚ) * scale
    width := b.width
    height := b.height }

/-- The rectangle of a glyph has the shape the glyph loop gives it: its
normalized extent is its pixel size over the atlas size 512. -/
def rectangleOfSize (g : Glyph) : Prop :=
  g.x1 = g.x0 + (g.width : ℚ) / 512 ∧ g.y1 = g.y0 + (g.height : ℚ) / 512

/-- The invariant of the glyph loop on the cursor and the placements made so
far. -/
def rowInvariant (lineHeight : Int) (s : PackState) : Prop :=
  List.Chain' (followsInRow lineHeight) s.blits ∧
    (∀ b ∈ s.blits.head?, b.x = 0) ∧
    (∀ b ∈ s.blits, ∃ n : Nat, b.y = (n : Int) * lineHeight) ∧
    (∃ n : Nat, s.y = (n : Int) * lineHeight) ∧
    (∀ b ∈ s.blits.getLast?, b.y = s.y ∧ s.x = b.x + b.width + 1) ∧
    (s.blits = [] → s.x = 0)

/-! ## The fallback buffer after the drawing loop (C21) -/

/-- The store `fontData[idx] = 255` of `setPixel` on the buffer. -/
def storePixel (fontData : Int → Nat) (idx : Int) : Int → Nat :=
  fun j => if j = idx then 255 else fontData j

/-- The buffer after a sequence of `setPixel` stores, made in order. -/
def storePixels (writes : List Int) (fontData : Int → Nat) : Int → Nat :=
  writes.foldl storePixel fontData

/-- The buffer `fontData` of `createBitmapFontTexture` after
`memset(fontData, 0, bufferSize)` and the drawing loop, by index. -/
def fontDataAfterLoop : Int → Nat :=
  storePixels fontDataWrites (fun _ => 0)

/-! ## Reference notions for the packing theorems (C22) -/

/-- The pixel rectangles `[x, x + width) x [y, y + height)` of two placements
have no pixel in common. -/
def disjointRects (a b : Blit) : Prop :=
  ∀ px py : Int,
    ¬ ((a.x ≤ px ∧ px < a.x + a.width ∧ a.y ≤ py ∧ py < a.y + a.height) ∧
        (b.x ≤ px ∧ px < b.x + b.width ∧ b.y ≤ py ∧ py < b.y + b.height))

/-- The invariant of the glyph loop used for disjointness: the placements made
so far are pairwise disjoint, start at `x >= 0`, are at most one row high, and
each lies either in the current row, ending before the cursor, or in a row
above the current one. -/
def disjointInvariant (lineHeight : Int) (s : PackState) : Prop :=
  0 ≤ s.x ∧
    s.blits.Pairwise disjointRects ∧
    ∀ b ∈ s.blits, 0 ≤ b.x ∧ 0 ≤ b.height ∧ b.height ≤ lineHeight ∧
      ((b.y = s.y ∧ b.x + b.width + 1 ≤ s.x) ∨ b.y + lineHeight ≤ s.y)

/-! ## Lemmas on the layout loops -/

theorem outOfRange_eq (c : Fin 256) : outOfRange c = !inRange c := by
  unfold outOfRange inRange
  rw [Bool.eq_iff_iff]
  simp
  omega

/-- The range test gives the same answer on the signed `char` of the fallback
loop as on the `unsigned char` of the outline loop. -/
theorem outOfRangeChar_eq (c : Fin 256) : outOfRangeChar c = !inRange c := by
  have hc := c.isLt
  unfold outOfRangeChar inRange toChar
  rw [Bool.eq_iff_iff]
  split_ifs <;> simp <;> omega

theorem oneQuadPerChar_length (renderer : TextRenderer) (y scale : ℚ) (s : List (Fin 256)) :
    ∀ px : ℚ, (oneQuadPerChar renderer y scale s px).length = s.length := by
  induction s with
  | nil => intro px; rfl
  | cons c rest ih => intro px; simp [oneQuadPerChar, ih]

theorem renderFallbackLoop_eq (renderer : TextRenderer) (h : renderer.glyphs.isEmpty = true)
    (y scale : ℚ) (s : List (Fin 256)) :
    ∀ x : ℚ, renderFallbackLoop y scale s x =
      (oneQuadPerChar renderer y scale (s.filter (drawn renderer)) x,
        x + ((s.filter (drawn renderer)).map (advanceOf renderer scale)).sum) := by
  induction s with
  | nil => intro x; simp [renderFallbackLoop, oneQuadPerChar]
  | cons c rest ih =>
    intro x
    cases hc : inRange c
    · simp [renderFallbackLoop, outOfRangeChar_eq, drawn, hc, ih]
    · simp [renderFallbackLoop, outOfRangeChar_eq, drawn, hc, ih, h, oneQuadPerChar,
        advanceOf, quadOf]
      exact ⟨by congr 1; ring, by ring⟩

theorem renderOutlineLoop_eq (renderer : TextRenderer) (h : renderer.glyphs.isEmpty = false)
    (y scale : ℚ) (s : List (Fin 256)) :
    ∀ x : ℚ, renderOutlineLoop renderer.glyphs y scale s x =
      (oneQuadPerChar renderer y scale (s.filter (drawn renderer)) x,
        x + ((s.filter (drawn renderer)).map (advanceOf renderer scale)).sum) := by
  induction s with
  | nil => intro x; simp [renderOutlineLoop, oneQuadPerChar]
  | cons c rest ih =>
    intro x
    cases hc : inRange c
    · simp [renderOutlineLoop, outOfRange_eq, drawn, hc, ih]
    · cases hg : renderer.glyphs.find c with
      | none => simp [renderOutlineLoop, outOfRange_eq, drawn, hc, ih, h, hg]
      | some glyph =>
        simp [renderOutlineLoop, outOfRange_eq, drawn, hc, ih, h, hg, oneQuadPerChar,
          advanceOf, quadOf]
        ring

/-- The result of `renderText` in terms of the drawn characters of the text. -/
theorem renderText_eq (renderer : TextRenderer) (s : List (Fin 256)) (x y scale : ℚ) :
    renderText s x y scale renderer =
      (oneQuadPerChar renderer y scale (s.filter (drawn renderer)) x,
        x + ((s.filter (drawn renderer)).map (advanceOf renderer scale)).sum) := by
  unfold renderText
  cases s with
  | nil => simp [oneQuadPerChar]
  | cons c rest =>
    cases h : renderer.glyphs.isEmpty
    · simpa [h] using renderOutlineLoop_eq renderer h y scale (c :: rest) x
    · simpa [h] using renderFallbackLoop_eq renderer h y scale (c :: rest) x

theorem filter_drawn_filter_inRange (renderer : TextRenderer) (s : List (Fin 256)) :
    (s.filter inRange).filter (drawn renderer) = s.filter (drawn renderer) := by
  rw [List.filter_filter]
  congr 1
  funext c
  unfold drawn
  cases inRange c <;> simp

/-! ## Lemmas on font loading -/

/-- The row height at the font size 32 that `initTextRenderer` requests. -/
theorem lineHeightOf_32 : lineHeightOf 32 = 38 := by
  unfold lineHeightOf truncToInt
  rw [if_pos (by norm_num)]
  rw [Int.floor_eq_iff]
  norm_num

/-- `loadTTFFont` on a file that decodes: the outcome of the glyph loop decides
the result. -/
theorem loadTTFFont_font (f : Font) (renderer : TextRenderer) (fontSize : ℚ) :
    loadTTFFont (FontFile.font f) renderer fontSize =
      match packLoop (lineHeightOf fontSize) (f.scaleForPixelHeight fontSize)
          (glyphInputs f (f.scaleForPixelHeight fontSize))
          { x := 0, y := 0, glyphs := renderer.glyphs, blits := [] } with
      | (false, s) =>
        (false,
          { renderer with
            fontScale := f.scaleForPixelHeight fontSize
            fontSize := fontSize
            glyphs := s.glyphs })
      | (true, s) =>
        (true,
          { renderer with
            fontScale := f.scaleForPixelHeight fontSize
            fontSize := fontSize
            glyphs := s.glyphs
            fontTexture := FontTexture.outlineAtlas s.blits
            fontTextureWidth := atlasWidth
            fontTextureHeight := atlasHeight }) := rfl

/-- Every write of the copy loop comes from a bitmap pixel `(gx, gy)` whose
atlas position passed the bounds test. -/
theorem mem_copyLoop (b : Blit) (p : Int × Int) (hp : p ∈ copyLoop b) :
    ∃ gx gy : Nat, (gx : Int) < b.width ∧ (gy : Int) < b.height ∧
      b.x + (gx : Int) < atlasWidth ∧ b.y + (gy : Int) < atlasHeight ∧
      p = ((b.y + (gy : Int)) * atlasWidth + (b.x + (gx : Int)),
            (gy : Int) * b.width + (gx : Int)) := by
  unfold copyLoop at hp
  simp only [List.mem_flatMap, List.mem_filterMap, List.mem_range] at hp
  obtain ⟨gy, hgy, gx, hgx, h⟩ := hp
  split_ifs at h with hc
  refine ⟨gx, gy, by omega, by omega, hc.1, hc.2, ?_⟩
  simpa using h.symm

/-- When no candidate file exists the candidate loop loads nothing and leaves
the renderer as it was. -/
theorem candidateLoop_all_absent (candidates : List (Option FontFile))
    (renderer : TextRenderer) (hnone : ∀ c ∈ candidates, c = none) :
    candidateLoop candidates renderer = (false, renderer) := by
  induction candidates with
  | nil => rfl
  | cons c rest ih =>
    have hc : c = none := hnone c (List.mem_cons_self c rest)
    subst hc
    simpa [candidateLoop] using ih (fun d hd => hnone d (List.mem_cons_of_mem _ hd))

/-! ## Text layout and measurement (C1, C2, C9, C10) -/

/-- C1, evaluated at the failing input. In the fallback state (empty glyph
table) the string made of the single byte 1 measures `(8 + 2) * 1 = 10` although
`renderText` draws nothing for it and leaves the pen at the origin; and the
string A, code 1, B measures 30 although the pen of `renderText` advances by
20. In the outline state `rendererAB` measurement and layout agree on that
string (both 38): the outline branch of `measureTextWidth` skips the byte. -/
theorem measureTextWidth_fallback_counts_skipped_bytes :
    measureTextWidth [1] 1 TextRenderer.fresh = 10 ∧
      renderText [1] 0 0 1 TextRenderer.fresh = ([], 0) ∧
      measureTextWidth [65, 1, 66] 1 TextRenderer.fresh = 30 ∧
      (renderText [65, 1, 66] 0 0 1 TextRenderer.fresh).2 = 20 ∧
      measureTextWidth [65, 1, 66] 1 rendererAB = 38 ∧
      (renderText [65, 1, 66] 0 0 1 rendererAB).2 = 38 := by
  refine ⟨?_, ?_, ?_, ?_, ?_, ?_⟩
  · norm_num [measureTextWidth, TextRenderer.fresh]
  · decide
  · norm_num [measureTextWidth, TextRenderer.fresh]
  · rw [renderText_eq]
    have h : List.filter (drawn TextRenderer.fresh) [65, 1, 66] = [65, 66] := by decide
    rw [h]
    norm_num [advanceOf, TextRenderer.fresh]
  · have h65 : outOfRange 65 = false := by decide
    have h1 : outOfRange 1 = true := by decide
    have h66 : outOfRange 66 = false := by decide
    simp [measureTextWidth, rendererAB, measureOutlineLoop, h65, h1, h66, GlyphTable.find]
    norm_num
  · rw [renderText_eq]
    have h : List.filter (drawn rendererAB) [65, 1, 66] = [65, 66] := by decide
    rw [h]
    have hne : ¬ ((65 : Fin 256) = 66) := by decide
    norm_num [advanceOf, rendererAB, GlyphTable.find, hne]

/-- C2. Out-of-range codes are skipped by layout. For every renderer state
(outline or fallback), string, origin and scale, `renderText` draws exactly one
quad per drawn character (code in 32..126 and, in the outline path, present in
the glyph table), in string order, each at the pen position reached by the
advances of the drawn characters before it; the final pen is the origin plus
the advances of the drawn characters; a character with code below 32 or above
126 draws nothing and leaves the pen unchanged, wherever it stands in the
string; and the quads and final pen of a string are those of the string with
its out-of-range bytes removed. Scenario: with A and B drawn, the string A,
code 1, B gives exactly 2 quads and a pen advance of `advance(A) + advance(B)`. -/
theorem renderText_skips_out_of_range (renderer : TextRenderer) (s : List (Fin 256))
    (x y k : ℚ) :
    (renderText s x y k renderer).1
        = oneQuadPerChar renderer y k (s.filter (drawn renderer)) x ∧
      (renderText s x y k renderer).1.length = (s.filter (drawn renderer)).length ∧
      (renderText s x y k renderer).2
        = x + ((s.filter (drawn renderer)).map (advanceOf renderer k)).sum ∧
      (∀ c : Fin 256, (c.val < 32 ∨ 127 ≤ c.val) → ∀ pre post : List (Fin 256),
        renderText (pre ++ c :: post) x y k renderer
          = renderText (pre ++ post) x y k renderer) ∧
      renderText s x y k renderer = renderText (s.filter inRange) x y k renderer ∧
      (drawn renderer 65 = true → drawn renderer 66 = true →
        (renderText [65, 1, 66] x y k renderer).1.length = 2 ∧
        (renderText [65, 1, 66] x y k renderer).2
          = x + (advanceOf renderer k 65 + advanceOf renderer k 66)) := by
  refine ⟨?_, ?_, ?_, ?_, ?_, ?_⟩
  · rw [renderText_eq]
  · rw [renderText_eq, oneQuadPerChar_length]
  · rw [renderText_eq]
  · intro c hc pre post
    have hd : drawn renderer c = false := by
      have : inRange c = false := by
        unfold inRange
        rw [Bool.eq_false_iff]
        simp
        omega
      simp [drawn, this]
    rw [renderText_eq, renderText_eq]
    simp [List.filter_append, List.filter_cons, hd]
  · rw [renderText_eq, renderText_eq, filter_drawn_filter_inRange]
  · intro ha hb
    have h1 : drawn renderer 1 = false := by
      have : inRange 1 = false := by decide
      simp [drawn, this]
    rw [renderText_eq]
    simp [List.filter_cons, ha, hb, h1, oneQuadPerChar]

/-- The scenario of C2 in both renderer states: in the fallback state and in an
outline state with glyphs for A and B, the string A, code 1, B is laid out as
the string A, B, with 2 quads; the pen advances by `2 * (8 + 2) = 20` in the
fallback state and by `19 + 19 = 38` in the outline state. -/
theorem renderText_skips_out_of_range_witness :
    (drawn TextRenderer.fresh 65 = true ∧ drawn TextRenderer.fresh 66 = true ∧
      renderText [65, 1, 66] 0 0 1 TextRenderer.fresh
        = renderText [65, 66] 0 0 1 TextRenderer.fresh ∧
      (renderText [65, 1, 66] 0 0 1 TextRenderer.fresh).1.length = 2 ∧
      (renderText [65, 1, 66] 0 0 1 TextRenderer.fresh).2 = 20) ∧
    (drawn rendererAB 65 = true ∧ drawn rendererAB 66 = true ∧
      renderText [65, 1, 66] 0 0 1 rendererAB = renderText [65, 66] 0 0 1 rendererAB ∧
      (renderText [65, 1, 66] 0 0 1 rendererAB).1.length = 2 ∧
      (renderText [65, 1, 66] 0 0 1 rendererAB).2 = 38) := by
  have hf := renderText_skips_out_of_range TextRenderer.fresh [65, 1, 66] 0 0 1
  have ho := renderText_skips_out_of_range rendererAB [65, 1, 66] 0 0 1
  have hf2 := hf.2.2.2.2.2 (by decide) (by decide)
  have ho2 := ho.2.2.2.2.2 (by decide) (by decide)
  have hne : ¬ ((65 : Fin 256) = 66) := by decide
  refine ⟨⟨by decide, by decide, hf.2.2.2.1 1 (by decide) [65] [66], hf2.1, ?_⟩,
    ⟨by decide, by decide, ho.2.2.2.1 1 (by decide) [65] [66], ho2.1, ?_⟩⟩
  · rw [hf2.2]
    norm_num [advanceOf, TextRenderer.fresh]
  · rw [ho2.2]
    norm_num [advanceOf, rendererAB, GlyphTable.find, hne]

/-- C9. Empty input: for every scale and every renderer state (outline or
fallback), `measureTextWidth` of the empty string is 0 and `renderText` of the
empty string draws no quad (and leaves the pen at the origin). -/
theorem empty_text_measures_zero_and_draws_nothing (renderer : TextRenderer) (x y k : ℚ) :
    measureTextWidth [] k renderer = 0 ∧
      (renderText [] x y k renderer).1 = [] ∧
      (renderText [] x y k renderer).2 = x := by
  refine ⟨?_, rfl, rfl⟩
  unfold measureTextWidth
  cases renderer.glyphs.isEmpty <;> simp [measureOutlineLoop]

/-- C10. Fixed-pitch measurement: in the fallback path (empty glyph table), for
every string of `n` characters and every scale `k`, `measureTextWidth` returns
`n * (8 + 2) * k`; in particular for every string whose characters all have
codes in 32..126 (the value does not depend on the codes). -/
theorem measureTextWidth_fixed_pitch (renderer : TextRenderer) (s : List (Fin 256)) (k : ℚ)
    (hempty : renderer.glyphs = []) :
    measureTextWidth s k renderer = (s.length : ℚ) * (8 + 2) * k := by
  unfold measureTextWidth
  simp [hempty]
  ring

/-- The scenario of C10: the string HELLO (all codes in 32..126) at scale 1
measures `5 * (8 + 2) = 50` with the fallback drawer. -/
theorem measureTextWidth_fixed_pitch_witness :
    TextRenderer.fresh.glyphs = [] ∧
      (∀ c ∈ ([72, 69, 76, 76, 79] : List (Fin 256)), 32 ≤ c.val ∧ c.val ≤ 126) ∧
      measureTextWidth [72, 69, 76, 76, 79] 1 TextRenderer.fresh = 5 * (8 + 2) ∧
      measureTextWidth [72, 69, 76, 76, 79] 1 TextRenderer.fresh = 50 := by
  have h := measureTextWidth_fixed_pitch TextRenderer.fresh [72, 69, 76, 76, 79] 1 rfl
  refine ⟨rfl, by simp; decide, ?_, ?_⟩
  · rw [h]; norm_num
  · rw [h]; norm_num

/-! ## Atlas packing (C3, C4) -/

/-- C3, evaluated at the failing input. Loading `fontRows` at size 32 (row
height 38) into the 512x512 atlas succeeds although the packing loop starts a
14th row at `y = 494`, whose bottom `494 + 38 = 532` lies below the atlas
(rows used times row height is `14 * 38 = 532 > 512`): the overflow test
compares `y + height` of the glyph that opens the row (`494 + 10 <= 512`), not
`y + lineHeight`. The next glyph, of height 30, is placed in that row without
any test, and the copy loop clips it: only bitmap indices below `18 * 100` are
copied, the rows 18..29 of the bitmap are dropped. -/
theorem packing_succeeds_with_row_past_atlas_bottom :
    lineHeightOf 32 = 38 ∧
      (loadTTFFont (FontFile.font fontRows) TextRenderer.fresh 32).1 = true ∧
      (atlasBlits (loadTTFFont (FontFile.font fontRows) TextRenderer.fresh 32).2.fontTexture).map
          (fun b => (b.code, b.x, b.y, b.width, b.height))
        = [(32, 0, 0, 511, 10), (33, 0, 38, 511, 10), (34, 0, 76, 511, 10),
           (35, 0, 114, 511, 10), (36, 0, 152, 511, 10), (37, 0, 190, 511, 10),
           (38, 0, 228, 511, 10), (39, 0, 266, 511, 10), (40, 0, 304, 511, 10),
           (41, 0, 342, 511, 10), (42, 0, 380, 511, 10), (43, 0, 418, 511, 10),
           (44, 0, 456, 511, 10), (45, 0, 494, 100, 10), (46, 101, 494, 100, 30)] ∧
      ((atlasBlits (loadTTFFont (FontFile.font fontRows) TextRenderer.fresh 32).2.fontTexture).map
          (fun b => b.y)).dedup.length = 14 ∧
      14 * lineHeightOf 32 > atlasHeight ∧
      494 + lineHeightOf 32 > atlasHeight ∧
      (∀ p ∈ copyLoop ⟨46, 101, 494, 100, 30⟩, p.2 < 18 * 100) := by
  refine ⟨lineHeightOf_32, ?_, ?_, ?_, ?_, ?_, ?_⟩
  · rw [loadTTFFont_font, lineHeightOf_32]
    decide
  · rw [loadTTFFont_font, lineHeightOf_32]
    decide
  · rw [loadTTFFont_font, lineHeightOf_32]
    decide
  · rw [lineHeightOf_32]
    decide
  · rw [lineHeightOf_32]
    decide
  · intro p hp
    obtain ⟨gx, gy, h1, h2, h3, h4, rfl⟩ := mem_copyLoop _ p hp
    simp only [atlasHeight, atlasWidth] at *
    omega

/-- C4, evaluated at the failing input. Loading `fontWide` at size 32 succeeds
and records for code 32 a glyph of width 600 placed at `x = 0`, so that
`x + width = 600 > 512` and `x1 = 600 / 512 > 1`, while the copy loop wrote
only the columns below 512 (bitmap columns 512..599 are never copied). In the
same way loading `fontRows` succeeds and records for code 46 a glyph with
`y + height = 524 > 512`, that is `y1 = 524 / 512 > 1`. -/
theorem recorded_rectangle_exceeds_atlas :
    ((loadTTFFont (FontFile.font fontWide) TextRenderer.fresh 32).1 = true ∧
      (loadTTFFont (FontFile.font fontWide) TextRenderer.fresh 32).2.fontTexture
        = FontTexture.outlineAtlas [⟨32, 0, 38, 600, 20⟩] ∧
      (∃ g, (loadTTFFont (FontFile.font fontWide) TextRenderer.fresh 32).2.glyphs.find 32
          = some g ∧
        g.width = 600 ∧ g.x0 = 0 ∧ g.x1 = 600 / 512 ∧ 1 < g.x1) ∧
      (∀ p ∈ copyLoop ⟨32, 0, 38, 600, 20⟩, p.1 % 512 = p.2 % 600 ∧ p.2 % 600 < 512)) ∧
    ((loadTTFFont (FontFile.font fontRows) TextRenderer.fresh 32).1 = true ∧
      (∃ g, (loadTTFFont (FontFile.font fontRows) TextRenderer.fresh 32).2.glyphs.find 46
          = some g ∧
        g.height = 30 ∧ g.y0 = 494 / 512 ∧ g.y1 = 524 / 512 ∧ 1 < g.y1)) := by
  refine ⟨⟨?_, ?_, ?_, ?_⟩, ?_, ?_⟩
  · rw [loadTTFFont_font, lineHeightOf_32]
    decide
  · rw [loadTTFFont_font, lineHeightOf_32]
    decide
  · rw [loadTTFFont_font, lineHeightOf_32]
    simp +decide [glyphInputs, fontWide, List.range, List.range.loop, packLoop, packGlyph,
      GlyphTable.assign, GlyphTable.find, TextRenderer.fresh, toUChar, atlasWidth]
    norm_num
  · intro p hp
    obtain ⟨gx, gy, h1, h2, h3, h4, rfl⟩ := mem_copyLoop _ p hp
    simp only [atlasHeight, atlasWidth] at *
    omega
  · rw [loadTTFFont_font, lineHeightOf_32]
    decide
  · rw [loadTTFFont_font, lineHeightOf_32]
    simp +decide [glyphInputs, fontRows, List.range, List.range.loop, packLoop, packGlyph,
      GlyphTable.assign, GlyphTable.find, TextRenderer.fresh, toUChar, atlasWidth, atlasHeight]
    norm_num

/-! ## Font initialization (C5, C6, C7, C8) -/

/-- C5, evaluated at the failing input. When the only existing candidate is
`fontA`, whose packing overflows after the glyph of code 32 was recorded,
`initTextRenderer` from a fresh renderer ends with the fallback atlas as font
texture and a non-empty glyph table (the entry for code 32), so `renderText`
takes the outline path on the fallback atlas and draws nothing for the letter
A. Conversely, when the loaded font has no bitmap for any code (`fontBlank`),
it ends with the outline atlas as font texture and an empty glyph table, so
`renderText` takes the fixed-pitch path on the outline atlas. -/
theorem failed_candidate_mixes_font_states :
    ((initTextRenderer [some (FontFile.font fontA), none, none] TextRenderer.fresh).fontTexture
        = FontTexture.fallbackAtlas ∧
      (initTextRenderer [some (FontFile.font fontA), none, none] TextRenderer.fresh).glyphs.isEmpty
        = false ∧
      (initTextRenderer [some (FontFile.font fontA), none, none] TextRenderer.fresh).glyphs.map
        (fun p => p.1) = [32] ∧
      (renderText [65] 0 0 1
        (initTextRenderer [some (FontFile.font fontA), none, none] TextRenderer.fresh)).1 = []) ∧
    ((initTextRenderer [some (FontFile.font fontBlank), none, none] TextRenderer.fresh).fontTexture
        = FontTexture.outlineAtlas [] ∧
      (initTextRenderer [some (FontFile.font fontBlank), none, none] TextRenderer.fresh).glyphs
        = []) := by
  simp only [initTextRenderer, candidateLoop, loadTTFFont_font, lineHeightOf_32]
  refine ⟨⟨by decide, by decide, by decide, by decide⟩, by decide, by decide⟩

/-- C6, evaluated at the failing input. `loadTTFFont` on `fontA` at size 32,
from the renderer `main` prepares (empty glyph table, `fontSize = 24`,
`fontScale = 1`), returns false by packing overflow and leaves a glyph table
with an entry for code 32, `fontSize = 32` and `fontScale = 32 / 2048`. The
three earlier failure returns (file cannot be opened, cannot be read, is not a
font) do leave the renderer exactly as it was. -/
theorem loadTTFFont_overflow_leaves_trace :
    (loadTTFFont (FontFile.font fontA) rendererMain 32).1 = false ∧
      rendererMain.glyphs = [] ∧
      (loadTTFFont (FontFile.font fontA) rendererMain 32).2.glyphs.map (fun p => p.1) = [32] ∧
      rendererMain.fontSize = 24 ∧
      (loadTTFFont (FontFile.font fontA) rendererMain 32).2.fontSize = 32 ∧
      rendererMain.fontScale = 1 ∧
      (loadTTFFont (FontFile.font fontA) rendererMain 32).2.fontScale = 1 / 64 ∧
      loadTTFFont FontFile.cannotOpen rendererMain 32 = (false, rendererMain) ∧
      loadTTFFont FontFile.cannotRead rendererMain 32 = (false, rendererMain) ∧
      loadTTFFont FontFile.notAFont rendererMain 32 = (false, rendererMain) := by
  have hsize : (loadTTFFont (FontFile.font fontA) rendererMain 32).2.fontSize = 32 := by
    rw [loadTTFFont_font, lineHeightOf_32]
    rfl
  have hscale : (loadTTFFont (FontFile.font fontA) rendererMain 32).2.fontScale
      = fontA.scaleForPixelHeight 32 := by
    rw [loadTTFFont_font, lineHeightOf_32]
    rfl
  refine ⟨?_, rfl, ?_, rfl, hsize, rfl, ?_, rfl, rfl, rfl⟩
  · rw [loadTTFFont_font, lineHeightOf_32]
    decide
  · rw [loadTTFFont_font, lineHeightOf_32]
    decide
  · rw [hscale]
    norm_num [fontA]

/-- C7 as stated fails: with no candidate font file present, the glyph table
after `initTextRenderer` has no entry for a printable code (here the letter A,
code 65), so it is not true that it has an entry for every code 32..126. -/
theorem fallback_does_not_populate_glyph_table :
    ¬ (∀ c : Fin 256, 32 ≤ c.val → c.val ≤ 126 →
        ((initTextRenderer [none, none, none] TextRenderer.fresh).glyphs.find c).isSome
          = true) := by
  intro h
  have h65 := h 65 (by decide) (by decide)
  revert h65
  decide

/-- C7, amended. If no candidate font file is present, then after
`initTextRenderer`, started with an empty glyph table, the glyph table is still
empty and the fallback atlas is the font texture; `renderText` draws one quad
per character with code in 32..126 and advances the pen by the fixed pitch
`(8 + 2) * scale` per such character; and `measureTextWidth` returns
`(8 + 2) * scale` per character for every string whose characters all have
codes in 32..126. -/
theorem init_without_font_files_fixed_pitch (candidates : List (Option FontFile))
    (renderer : TextRenderer)
    (hnone : ∀ c ∈ candidates, c = none) (hempty : renderer.glyphs = []) :
    (initTextRenderer candidates renderer).glyphs = [] ∧
      (initTextRenderer candidates renderer).fontTexture = FontTexture.fallbackAtlas ∧
      (∀ (s : List (Fin 256)) (x y k : ℚ),
        (renderText s x y k (initTextRenderer candidates renderer)).1.length
            = (s.filter inRange).length ∧
          (renderText s x y k (initTextRenderer candidates renderer)).2
            = x + ((s.filter inRange).length : ℚ) * ((8 + 2) * k)) ∧
      (∀ (s : List (Fin 256)) (k : ℚ), (∀ c ∈ s, inRange c = true) →
        measureTextWidth s k (initTextRenderer candidates renderer)
          = (s.length : ℚ) * ((8 + 2) * k)) := by
  have hinit : initTextRenderer candidates renderer = createBitmapFontTexture renderer := by
    unfold initTextRenderer
    rw [candidateLoop_all_absent candidates renderer hnone]
  have hg : (initTextRenderer candidates renderer).glyphs = [] := by
    rw [hinit]
    exact hempty
  have hdrawn : drawn (initTextRenderer candidates renderer) = inRange := by
    funext c
    simp [drawn, hg]
  have hadv : ∀ k : ℚ, advanceOf (initTextRenderer candidates renderer) k
      = fun _ => (8 + 2) * k := by
    intro k
    funext c
    simp [advanceOf, hg]
  refine ⟨hg, by rw [hinit]; rfl, ?_, ?_⟩
  · intro s x y k
    rw [renderText_eq, oneQuadPerChar_length, hdrawn, hadv]
    simp
  · intro s k _
    unfold measureTextWidth
    simp [hg]
    ring

/-- Amended C7 at the three absent candidate paths of the source, from a
fresh renderer: the glyph table is empty, the fallback atlas is the font
texture, the string H, code 1, I advances the pen by `2 * (8 + 2) = 20`, and
the string H, I measures 20. -/
theorem init_without_font_files_fixed_pitch_witness :
    (∀ c ∈ ([none, none, none] : List (Option FontFile)), c = none) ∧
      TextRenderer.fresh.glyphs = [] ∧
      (initTextRenderer [none, none, none] TextRenderer.fresh).glyphs = [] ∧
      (initTextRenderer [none, none, none] TextRenderer.fresh).fontTexture
        = FontTexture.fallbackAtlas ∧
      (renderText [72, 1, 73] 0 0 1 (initTextRenderer [none, none, none] TextRenderer.fresh)).2
        = 20 ∧
      (∀ c ∈ ([72, 73] : List (Fin 256)), inRange c = true) ∧
      measureTextWidth [72, 73] 1 (initTextRenderer [none, none, none] TextRenderer.fresh)
        = 20 := by
  have hnone : ∀ c ∈ ([none, none, none] : List (Option FontFile)), c = none := by simp
  have hin : ∀ c ∈ ([72, 73] : List (Fin 256)), inRange c = true := by simp; decide
  have h := init_without_font_files_fixed_pitch [none, none, none] TextRenderer.fresh hnone rfl
  refine ⟨hnone, rfl, h.1, h.2.1, ?_, hin, ?_⟩
  · rw [(h.2.2.1 [72, 1, 73] 0 0 1).2]
    have hf : List.filter inRange [72, 1, 73] = [72, 73] := by decide
    rw [hf]
    norm_num
  · rw [h.2.2.2 [72, 73] 1 hin]
    norm_num

/-- C8, evaluated at the failing input. The first candidate is `fontA`, whose
packing overflows after the glyph of code 32 was recorded; the second is
`fontB`, which loads and whose rasterizer returns no bitmap for code 32. After
`initTextRenderer` from a fresh renderer the atlas of `fontB` is the font
texture and the glyph table still has the entry of `fontA` for code 32. -/
theorem glyph_of_failed_candidate_survives :
    (initTextRenderer [some (FontFile.font fontA), some (FontFile.font fontB), none]
        TextRenderer.fresh).fontTexture = FontTexture.outlineAtlas [⟨65, 0, 0, 16, 24⟩] ∧
      (∀ scale : ℚ, fontB.glyphBitmap scale 32 = none) ∧
      ((initTextRenderer [some (FontFile.font fontA), some (FontFile.font fontB), none]
        TextRenderer.fresh).glyphs.find 32).isSome = true ∧
      (initTextRenderer [some (FontFile.font fontA), some (FontFile.font fontB), none]
        TextRenderer.fresh).glyphs.map (fun p => p.1) = [65, 32] := by
  simp only [initTextRenderer, candidateLoop, loadTTFFont_font, lineHeightOf_32]
  refine ⟨by decide, fun _ => rfl, by decide, by decide⟩

/-! ## Lemmas on the fallback glyph drawer -/

set_option maxRecDepth 10000 in
/-- Every `setPixel` call of `drawChar` has its offset in the 8x8 cell. -/
theorem drawCharCalls_in_cell :
    ∀ c : Fin 256, ∀ p ∈ drawCharCalls c, 0 ≤ p.1 ∧ p.1 ≤ 7 ∧ 0 ≤ p.2 ∧ p.2 ≤ 7 := by
  decide

set_option maxRecDepth 10000 in
/-- The recursion equation of `drawChar` in the source: the calls for `c` are
those of the body, with the recursive call answered by `drawChar` itself. -/
theorem drawCharCalls_unfold :
    ∀ c : Fin 256, drawCharCalls c = drawCharBody drawCharCalls c := by
  decide

set_option maxRecDepth 10000 in
/-- Among the digits and the uppercase letters, the characters drawn as the box
placeholder are 0, F, J, K, Q, W and Z. -/
theorem drawsBox_digit_or_upper :
    ∀ c : Fin 256, (48 ≤ c.val ∧ c.val ≤ 57) ∨ (65 ≤ c.val ∧ c.val ≤ 90) →
      (drawsBox c = true ↔
        c.val = 48 ∨ c.val = 70 ∨ c.val = 74 ∨ c.val = 75 ∨ c.val = 81 ∨ c.val = 87 ∨
          c.val = 90) := by
  decide

set_option maxRecDepth 10000 in
/-- The printable codes that reach the default case of `drawChar` are drawn as
the box placeholder. -/
theorem drawsBox_default :
    ∀ c : Fin 256, 32 ≤ c.val ∧ c.val ≤ 126 → ¬ (48 ≤ c.val ∧ c.val ≤ 57) →
      ¬ (65 ≤ c.val ∧ c.val ≤ 90) → ¬ (97 ≤ c.val ∧ c.val ≤ 122) → c.val ≠ 32 →
      c.val ∉ [58, 46, 45, 61, 47, 40, 41] → drawsBox c = true := by
  decide

theorem mem_cellOffsets (p : Int × Int) :
    p ∈ cellOffsets ↔ 0 ≤ p.1 ∧ p.1 ≤ 7 ∧ 0 ≤ p.2 ∧ p.2 ≤ 7 := by
  obtain ⟨x, y⟩ := p
  unfold cellOffsets
  simp only [List.mem_flatMap, List.mem_map, List.mem_range, Prod.mk.injEq]
  constructor
  · rintro ⟨b, hb, a, ha, rfl, rfl⟩
    omega
  · rintro ⟨h1, h2, h3, h4⟩
    exact ⟨y.toNat, by omega, x.toNat, by omega, by omega, by omega⟩

theorem onBoxOutline_iff (x y : Int) :
    onBoxOutline (x, y) = true ↔
      1 ≤ x ∧ x ≤ 6 ∧ 1 ≤ y ∧ y ≤ 6 ∧ (x = 1 ∨ x = 6 ∨ y = 1 ∨ y = 6) := by
  simp [onBoxOutline, and_assoc, or_assoc]

/-- The executable test `drawsBox` says that the set of pixels drawn for `c` is
exactly the outline of the rectangle with corners `(1, 1)` and `(6, 6)`. -/
theorem drawsBox_iff (c : Fin 256) :
    drawsBox c = true ↔
      ∀ x y : Int, (x, y) ∈ drawCharCalls c ↔
        1 ≤ x ∧ x ≤ 6 ∧ 1 ≤ y ∧ y ≤ 6 ∧ (x = 1 ∨ x = 6 ∨ y = 1 ∨ y = 6) := by
  unfold drawsBox
  rw [List.all_eq_true]
  constructor
  · intro h x y
    by_cases hcell : 0 ≤ x ∧ x ≤ 7 ∧ 0 ≤ y ∧ y ≤ 7
    · have hp := h (x, y) ((mem_cellOffsets (x, y)).2 hcell)
      rw [beq_iff_eq] at hp
      rw [← onBoxOutline_iff, ← hp, decide_eq_true_iff]
    · constructor
      · intro hmem
        exact absurd (drawCharCalls_in_cell c (x, y) hmem) hcell
      · intro hbox
        exact absurd (by omega) hcell
  · intro h p _
    obtain ⟨x, y⟩ := p
    rw [beq_iff_eq]
    by_cases hmem : (x, y) ∈ drawCharCalls c
    · rw [decide_eq_true hmem]
      exact ((onBoxOutline_iff x y).2 ((h x y).1 hmem)).symm
    · rw [decide_eq_false hmem]
      cases hb : onBoxOutline (x, y)
      · rfl
      · exact absurd ((h x y).2 ((onBoxOutline_iff x y).1 hb)) hmem

/-! ## The fallback glyph drawer (C12, C13, C14, C15) -/

/-- C12 as stated fails: the digit 0 is a digit, and the set of pixels
`drawChar` draws for it is exactly the box placeholder (the outline of the
rectangle with corners `(1, 1)` and `(6, 6)`); so it is not true that every
digit and uppercase letter has a pattern different from the placeholder. -/
theorem digit_zero_is_drawn_as_box :
    ¬ (∀ c : Fin 256, (48 ≤ c.val ∧ c.val ≤ 57) ∨ (65 ≤ c.val ∧ c.val ≤ 90) →
        ¬ (∀ x y : Int, (x, y) ∈ drawCharCalls c ↔
            1 ≤ x ∧ x ≤ 6 ∧ 1 ≤ y ∧ y ≤ 6 ∧ (x = 1 ∨ x = 6 ∨ y = 1 ∨ y = 6))) := by
  intro h
  have hbox : drawsBox 48 = true := by decide
  exact h 48 (by decide) ((drawsBox_iff 48).1 hbox)

/-- C12, amended. For every digit and every uppercase letter `c`, the set of
pixels `drawChar` draws is the box placeholder exactly when `c` is one of
0, F, J, K, Q, W, Z (codes 48, 70, 74, 75, 81, 87, 90): the pattern drawn for
every digit 1..9 and for every other uppercase letter is different from the
placeholder. (Nothing is said on two of these characters having different
patterns: see `digit_nine_is_drawn_as_two`.) -/
theorem digits_and_letters_pattern (c : Fin 256)
    (hc : (48 ≤ c.val ∧ c.val ≤ 57) ∨ (65 ≤ c.val ∧ c.val ≤ 90)) :
    (∀ x y : Int, (x, y) ∈ drawCharCalls c ↔
        1 ≤ x ∧ x ≤ 6 ∧ 1 ≤ y ∧ y ≤ 6 ∧ (x = 1 ∨ x = 6 ∨ y = 1 ∨ y = 6)) ↔
      (c.val = 48 ∨ c.val = 70 ∨ c.val = 74 ∨ c.val = 75 ∨ c.val = 81 ∨ c.val = 87 ∨
        c.val = 90) := by
  rw [← drawsBox_iff]
  exact drawsBox_digit_or_upper c hc

/-- Amended C12 at the letters A (not the box placeholder: the pixel `(2, 4)`
of its bar is set, the pixel `(2, 6)` of the bottom edge is not) and F (the box
placeholder). -/
theorem digits_and_letters_pattern_witness :
    ((48 ≤ (65 : Fin 256).val ∧ (65 : Fin 256).val ≤ 57) ∨
        (65 ≤ (65 : Fin 256).val ∧ (65 : Fin 256).val ≤ 90)) ∧
      ¬ (∀ x y : Int, (x, y) ∈ drawCharCalls 65 ↔
          1 ≤ x ∧ x ≤ 6 ∧ 1 ≤ y ∧ y ≤ 6 ∧ (x = 1 ∨ x = 6 ∨ y = 1 ∨ y = 6)) ∧
      ((2 : Int), (4 : Int)) ∈ drawCharCalls 65 ∧
      ((2 : Int), (6 : Int)) ∉ drawCharCalls 65 ∧
      (∀ x y : Int, (x, y) ∈ drawCharCalls 70 ↔
          1 ≤ x ∧ x ≤ 6 ∧ 1 ≤ y ∧ y ≤ 6 ∧ (x = 1 ∨ x = 6 ∨ y = 1 ∨ y = 6)) := by
  have hA : (48 ≤ (65 : Fin 256).val ∧ (65 : Fin 256).val ≤ 57) ∨
      (65 ≤ (65 : Fin 256).val ∧ (65 : Fin 256).val ≤ 90) := by decide
  have hF : (48 ≤ (70 : Fin 256).val ∧ (70 : Fin 256).val ≤ 57) ∨
      (65 ≤ (70 : Fin 256).val ∧ (70 : Fin 256).val ≤ 90) := by decide
  refine ⟨hA, ?_, by decide, by decide, ?_⟩
  · intro h
    have h65 := (digits_and_letters_pattern 65 hA).1 h
    revert h65
    decide
  · exact (digits_and_letters_pattern 70 hF).2 (by decide)

/-- C13. Box placeholder for unsupported codes: for every printable code `c` in
32..126 that is not a digit, not a letter, not the space and none of
`: . - = / ( )`, the set of pixels `drawChar` sets in the cell is exactly the
outline of the rectangle with corners `(1, 1)` and `(6, 6)`; in particular the
glyph is not empty. -/
theorem unsupported_code_draws_box (c : Fin 256)
    (hprint : 32 ≤ c.val ∧ c.val ≤ 126)
    (hdigit : ¬ (48 ≤ c.val ∧ c.val ≤ 57))
    (hupper : ¬ (65 ≤ c.val ∧ c.val ≤ 90))
    (hlower : ¬ (97 ≤ c.val ∧ c.val ≤ 122))
    (hspace : c.val ≠ 32)
    (hpunct : c.val ∉ [58, 46, 45, 61, 47, 40, 41]) :
    (∀ x y : Int, (x, y) ∈ drawCharCalls c ↔
        1 ≤ x ∧ x ≤ 6 ∧ 1 ≤ y ∧ y ≤ 6 ∧ (x = 1 ∨ x = 6 ∨ y = 1 ∨ y = 6)) ∧
      drawCharCalls c ≠ [] := by
  have hbox := (drawsBox_iff c).1 (drawsBox_default c hprint hdigit hupper hlower hspace hpunct)
  refine ⟨hbox, ?_⟩
  intro hnil
  have h11 : ((1 : Int), (1 : Int)) ∈ drawCharCalls c := (hbox 1 1).2 (by omega)
  rw [hnil] at h11
  exact absurd h11 (List.not_mem_nil _)

/-- C13 at the exclamation mark (code 33): it is drawn as the box outline. -/
theorem unsupported_code_draws_box_witness :
    (32 ≤ (33 : Fin 256).val ∧ (33 : Fin 256).val ≤ 126) ∧
      (∀ x y : Int, (x, y) ∈ drawCharCalls 33 ↔
        1 ≤ x ∧ x ≤ 6 ∧ 1 ≤ y ∧ y ≤ 6 ∧ (x = 1 ∨ x = 6 ∨ y = 1 ∨ y = 6)) ∧
      drawCharCalls 33 ≠ [] :=
  ⟨by decide,
    unsupported_code_draws_box 33 (by decide) (by decide) (by decide) (by decide) (by decide)
      (by decide)⟩

/-- C14. Case folding: for every lowercase letter `c` in a..z and every cell
origin (and texture width), `drawChar` sets for `c` exactly the pixels, in the
same order, that it sets for the uppercase letter `c - 32`. -/
theorem lowercase_draws_as_uppercase (c : Fin 256) (hlo : 97 ≤ c.val) (hhi : c.val ≤ 122)
    (textureWidth startX startY : Int) :
    drawChar textureWidth startX startY c
      = drawChar textureWidth startX startY (toUChar (c.val - 32)) := by
  have hcalls : drawCharCalls c = drawCharCalls (toUChar (c.val - 32)) := by
    rw [drawCharCalls_unfold c]
    unfold drawCharBody
    rw [if_neg (by omega), if_neg (by omega), if_neg (by omega), if_pos ⟨hlo, hhi⟩]
  unfold drawChar
  rw [hcalls]

/-- C14 at the letter a (code 97), drawn in the cell of origin `(8, 32)` of the
128 pixel wide fallback atlas as the letter A (code 65). -/
theorem lowercase_draws_as_uppercase_witness :
    drawChar 128 8 32 97 = drawChar 128 8 32 65 ∧ drawChar 128 8 32 97 ≠ [] := by
  refine ⟨lowercase_draws_as_uppercase 97 (by decide) (by decide) 128 8 32, by decide⟩

/-- C15. The fallback drawer stays inside its 8x8 cell: for every byte value
`c` (0..255), every `setPixel` call made by `drawChar` for `c` uses a cell
offset `(x, y)` with `0 <= x <= 7` and `0 <= y <= 7`; so every index it writes
is `(startY + y) * textureWidth + (startX + x)` for such an offset. -/
theorem drawChar_stays_in_cell (c : Fin 256) :
    (∀ p ∈ drawCharCalls c, 0 ≤ p.1 ∧ p.1 ≤ 7 ∧ 0 ≤ p.2 ∧ p.2 ≤ 7) ∧
      (∀ (textureWidth startX startY : Int), ∀ idx ∈ drawChar textureWidth startX startY c,
        ∃ x y : Int, 0 ≤ x ∧ x ≤ 7 ∧ 0 ≤ y ∧ y ≤ 7 ∧
          idx = (startY + y) * textureWidth + (startX + x)) := by
  refine ⟨drawCharCalls_in_cell c, ?_⟩
  intro textureWidth startX startY idx hidx
  unfold drawChar at hidx
  rw [List.mem_map] at hidx
  obtain ⟨p, hp, rfl⟩ := hidx
  obtain ⟨h1, h2, h3, h4⟩ := drawCharCalls_in_cell c p hp
  exact ⟨p.1, p.2, h1, h2, h3, h4, rfl⟩

/-! ## Fallback texture coordinates (C20) -/

/-- C20. Fallback texture coordinates address the cell that was drawn: for
every code `c` in 32..126, the quad `renderText` draws for `c` in the fallback
path has the texture rectangle `(texLeft, texTop)-(texRight, texBottom)` which,
scaled by the 128x64 atlas size, is exactly the pixel cell
`[startX, startX + 8) x [startY, startY + 8)` of `createBitmapFontTexture` for
`c`; the cell lies in the atlas, every pixel `drawChar` sets for `c` from
that origin lies in the cell, and these are writes of the drawing loop of
`createBitmapFontTexture`. -/
theorem fallback_texcoords_address_drawn_cell (c : Fin 256) (hlo : 32 ≤ c.val)
    (hhi : c.val ≤ 126) (px y k : ℚ) (renderer : TextRenderer)
    (hempty : renderer.glyphs = []) :
    (renderText [c] px y k renderer).1 = [fallbackQuad c px y k] ∧
      (∃ texLeft texRight texTop texBottom : ℚ,
        (fallbackQuad c px y k).vertices =
          [px, y + 8 * k, texLeft, texBottom,
           px + 8 * k, y + 8 * k, texRight, texBottom,
           px + 8 * k, y, texRight, texTop,
           px, y, texLeft, texTop] ∧
        texLeft * 128 = ((cellOrigin c.val).1 : ℚ) ∧
        texRight * 128 = ((cellOrigin c.val).1 : ℚ) + 8 ∧
        texTop * 64 = ((cellOrigin c.val).2 : ℚ) ∧
        texBottom * 64 = ((cellOrigin c.val).2 : ℚ) + 8) ∧
      (0 ≤ (cellOrigin c.val).1 ∧ (cellOrigin c.val).1 + 8 ≤ 128 ∧
        0 ≤ (cellOrigin c.val).2 ∧ (cellOrigin c.val).2 + 8 ≤ 64) ∧
      (∀ p ∈ drawCharCalls c,
        (cellOrigin c.val).1 ≤ (cellOrigin c.val).1 + p.1 ∧
        (cellOrigin c.val).1 + p.1 < (cellOrigin c.val).1 + 8 ∧
        (cellOrigin c.val).2 ≤ (cellOrigin c.val).2 + p.2 ∧
        (cellOrigin c.val).2 + p.2 < (cellOrigin c.val).2 + 8) ∧
      (∀ idx ∈ drawChar 128 (cellOrigin c.val).1 (cellOrigin c.val).2 c,
        idx ∈ fontDataWrites) := by
  have hchar : toChar c = (c.val : Int) := by
    unfold toChar
    rw [if_pos (by omega)]
  have hrange : inRange c = true := by
    simp [inRange]
    omega
  refine ⟨?_, ?_, ?_, ?_, ?_⟩
  · rw [renderText_eq]
    simp [drawn, hrange, hempty, oneQuadPerChar, quadOf]
  · refine ⟨_, _, _, _, rfl, ?_, ?_, ?_, ?_⟩
    · simp only [hchar, cellOrigin]
      push_cast
      ring
    · simp only [hchar, cellOrigin]
      push_cast
      ring
    · simp only [hchar, cellOrigin]
      push_cast
      ring
    · simp only [hchar, cellOrigin]
      push_cast
      ring
  · simp only [cellOrigin]
    rw [Int.tdiv_eq_ediv (show (0 : Int) ≤ (c.val : Int) - 32 by omega) (by omega),
      Int.tmod_eq_emod (show (0 : Int) ≤ (c.val : Int) - 32 by omega) (by omega)]
    omega
  · intro p hp
    obtain ⟨h1, h2, h3, h4⟩ := drawCharCalls_in_cell c p hp
    omega
  · intro idx hidx
    unfold fontDataWrites
    rw [List.mem_flatMap]
    refine ⟨c.val - 32, List.mem_range.2 (by omega), ?_⟩
    have hc : toUChar (32 + (c.val - 32)) = c := by
      apply Fin.ext
      simp only [toUChar]
      omega
    have hn : ((32 + (c.val - 32) : Nat) : Int) = (c.val : Int) := by omega
    simp only [hc, hn]
    exact hidx

/-- C20 at the letter A (code 65, cell of origin `(8, 16)`): the texture
rectangle is `(1/16, 2/8)-(2/16, 3/8)`, that is the pixels `[8, 16) x [16, 24)`. -/
theorem fallback_texcoords_address_drawn_cell_witness :
    cellOrigin 65 = (8, 16) ∧
      (renderText [65] 0 0 1 TextRenderer.fresh).1 = [fallbackQuad 65 0 0 1] ∧
      (fallbackQuad 65 0 0 1).vertices =
        [0, 8, 1 / 16, 3 / 8, 8, 8, 2 / 16, 3 / 8, 8, 0, 2 / 16, 2 / 8, 0, 0, 1 / 16, 2 / 8] := by
  have h := fallback_texcoords_address_drawn_cell 65 (by decide) (by decide) 0 0 1
    TextRenderer.fresh rfl
  refine ⟨by decide, h.1, ?_⟩
  have hchar : toChar 65 = 65 := by decide
  have hcol : Int.tmod (65 - 32) 16 = 1 := by decide
  have hrow : Int.tdiv (65 - 32) 16 = 2 := by decide
  simp only [fallbackQuad, hchar, hcol, hrow]
  norm_num

/-! ## Outline-path layout and measurement (C11, C18) -/

theorem oneQuadPerChar_getElem (renderer : TextRenderer) (y k : ℚ) (l : List (Fin 256)) :
    ∀ (px : ℚ) (i : Nat) (c : Fin 256), l[i]? = some c →
      (oneQuadPerChar renderer y k l px)[i]? =
        some (quadOf renderer y k c (px + ((l.take i).map (advanceOf renderer k)).sum)) := by
  induction l with
  | nil => intro px i c h; simp at h
  | cons c0 rest ih =>
    intro px i c h
    cases i with
    | zero =>
      simp at h
      subst h
      simp [oneQuadPerChar]
    | succ j =>
      simp at h
      have := ih (px + advanceOf renderer k c0) j c h
      simp [oneQuadPerChar, this]
      congr 1
      ring

theorem outlineAdvanceSum_nil (glyphs : GlyphTable) (k : ℚ) :
    outlineAdvanceSum glyphs k [] = 0 := by
  simp [outlineAdvanceSum]

theorem outlineAdvanceSum_cons (glyphs : GlyphTable) (k : ℚ) (c : Fin 256)
    (rest : List (Fin 256)) :
    outlineAdvanceSum glyphs k (c :: rest) =
      (if outOfRange c then 0
        else match glyphs.find c with
          | some g => g.advance * k
          | none => 0) + outlineAdvanceSum glyphs k rest := by
  have hr : (32 ≤ c.val ∧ c.val ≤ 126) ↔ outOfRange c = false := by
    simp [outOfRange]
    omega
  unfold outlineAdvanceSum
  cases ho : outOfRange c
  · have h1 : 32 ≤ c.val ∧ c.val ≤ 126 := hr.2 ho
    cases hg : glyphs.find c <;> simp [List.filterMap_cons, h1, hg]
  · have h1 : ¬ (32 ≤ c.val ∧ c.val ≤ 126) := fun h => by
      rw [hr.1 h] at ho
      exact Bool.noConfusion ho
    simp [List.filterMap_cons, h1]

theorem measureOutlineLoop_eq (glyphs : GlyphTable) (k : ℚ) (s : List (Fin 256)) :
    ∀ w : ℚ, measureOutlineLoop glyphs k s w = w + outlineAdvanceSum glyphs k s := by
  induction s with
  | nil => intro w; simp [measureOutlineLoop, outlineAdvanceSum_nil]
  | cons c rest ih =>
    intro w
    rw [outlineAdvanceSum_cons]
    cases ho : outOfRange c
    · cases hg : glyphs.find c with
      | none => simp [measureOutlineLoop, ho, hg, ih]
      | some g =>
        simp [measureOutlineLoop, ho, hg, ih]
        ring
    · simp [measureOutlineLoop, ho, ih]

theorem renderOutlineLoop_pen (glyphs : GlyphTable) (y k : ℚ) (s : List (Fin 256)) :
    ∀ x : ℚ, (renderOutlineLoop glyphs y k s x).2 = x + outlineAdvanceSum glyphs k s := by
  induction s with
  | nil => intro x; simp [renderOutlineLoop, outlineAdvanceSum_nil]
  | cons c rest ih =>
    intro x
    rw [outlineAdvanceSum_cons]
    cases ho : outOfRange c
    · cases hg : glyphs.find c with
      | none => simp [renderOutlineLoop, ho, hg, ih]
      | some g =>
        simp [renderOutlineLoop, ho, hg, ih]
        ring
    · simp [renderOutlineLoop, ho, ih]

/-- C11. Outline-path quad geometry. In the outline state (non-empty glyph
table), for a character `c` with code in 32..126 and glyph `g` standing in the
text after `pre` and before `post`, with `px` the pen position `renderText`
has reached after `pre`, baseline `y` and scale `k`, the quad `renderText`
draws for it (the one following the quads of `pre`) has the 4 vertices
`(X, Y+H, g.x0, g.y1)`, `(X+W, Y+H, g.x1, g.y1)`, `(X+W, Y, g.x1, g.y0)`,
`(X, Y, g.x0, g.y0)` with `X = px + g.xoff*k`, `Y = y + g.yoff*k`,
`W = g.width*k`, `H = g.height*k`, and the 6 indices 0,1,2,2,3,0 -- the texture
coordinates are the normalized rectangle of the glyph -- and the pen then
stands at `px + g.advance*k`. -/
theorem outline_quad_geometry (renderer : TextRenderer) (pre post : List (Fin 256))
    (c : Fin 256) (g : Glyph) (x y k : ℚ)
    (hne : renderer.glyphs.isEmpty = false)
    (hlo : 32 ≤ c.val) (hhi : c.val ≤ 126)
    (hg : renderer.glyphs.find c = some g) :
    (renderText (pre ++ c :: post) x y k renderer).1[(renderText pre x y k renderer).1.length]?
        = some
          { vertices :=
              [(renderText pre x y k renderer).2 + g.xoff * k,
                 y + g.yoff * k + (g.height : ℚ) * k, g.x0, g.y1,
               (renderText pre x y k renderer).2 + g.xoff * k + (g.width : ℚ) * k,
                 y + g.yoff * k + (g.height : ℚ) * k, g.x1, g.y1,
               (renderText pre x y k renderer).2 + g.xoff * k + (g.width : ℚ) * k,
                 y + g.yoff * k, g.x1, g.y0,
               (renderText pre x y k renderer).2 + g.xoff * k,
                 y + g.yoff * k, g.x0, g.y0]
            indices := [0, 1, 2, 2, 3, 0] } ∧
      (renderText (pre ++ [c]) x y k renderer).2
        = (renderText pre x y k renderer).2 + g.advance * k := by
  have hin : inRange c = true := by
    simp [inRange]
    omega
  have hd : drawn renderer c = true := by
    simp [drawn, hin, hg]
  constructor
  · rw [renderText_eq, renderText_eq]
    simp only [oneQuadPerChar_length, List.filter_append, List.filter_cons, hd, if_true]
    have hidx : (List.filter (drawn renderer) pre ++ c :: List.filter (drawn renderer) post)[
        (List.filter (drawn renderer) pre).length]? = some c := by
      rw [List.getElem?_append_right (le_refl _)]
      simp
    rw [oneQuadPerChar_getElem renderer y k _ x _ c hidx]
    simp [quadOf, hne, hg, outlineQuad]
  · rw [renderText_eq, renderText_eq]
    simp [List.filter_append, List.filter_cons, hd, advanceOf, hne, hg]
    ring

/-- C11 on the renderer `rendererAB` at the string A, B: the second quad is
that of the glyph of B at pen position 19 (the advance of A). -/
theorem outline_quad_geometry_witness :
    rendererAB.glyphs.isEmpty = false ∧
      rendererAB.glyphs.find 66
        = some { x0 := 17 / 512, y0 := 0, x1 := 33 / 512, y1 := 3 / 64, xoff := 2,
                 yoff := -24, advance := 19, width := 16, height := 24 } ∧
      (renderText [65] 0 30 1 rendererAB).1.length = 1 ∧
      (renderText [65] 0 30 1 rendererAB).2 = 19 ∧
      (renderText [65, 66] 0 30 1 rendererAB).1[1]?
        = some
          { vertices :=
              [21, 30, 17 / 512, 3 / 64, 37, 30, 33 / 512, 3 / 64,
               37, 6, 33 / 512, 0, 21, 6, 17 / 512, 0]
            indices := [0, 1, 2, 2, 3, 0] } := by
  have hne : ¬ ((65 : Fin 256) = 66) := by decide
  have hfind : rendererAB.glyphs.find 66
      = some { x0 := 17 / 512, y0 := 0, x1 := 33 / 512, y1 := 3 / 64, xoff := 2,
               yoff := -24, advance := 19, width := 16, height := 24 } := by
    simp [rendererAB, GlyphTable.find, hne]
  have h := outline_quad_geometry rendererAB [65] [] 66 _ 0 30 1 (by decide) (by decide)
    (by decide) hfind
  have hpen : (renderText [65] 0 30 1 rendererAB).2 = 19 := by
    rw [renderText_eq]
    have hf : List.filter (drawn rendererAB) [65] = [65] := by decide
    rw [hf]
    norm_num [advanceOf, rendererAB, GlyphTable.find]
  have hlen : (renderText [65] 0 30 1 rendererAB).1.length = 1 := by decide
  refine ⟨by decide, hfind, hlen, hpen, ?_⟩
  have h1 := h.1
  rw [hlen, hpen] at h1
  simp only [List.singleton_append] at h1
  rw [h1]
  norm_num

/-- C18. Outline-path measurement is the projection of outline-path layout:
when the glyph table is non-empty, for every string, origin and scale, both
`measureTextWidth` and the pen advance of `renderText` (final `currentX` minus
the origin `x`) equal the sum of `advance(c) * k` over the characters `c` of
the string with `32 <= c <= 126` that have a glyph table entry. -/
theorem outline_measure_is_projection_of_layout (renderer : TextRenderer)
    (s : List (Fin 256)) (x y k : ℚ) (hne : renderer.glyphs.isEmpty = false) :
    measureTextWidth s k renderer = outlineAdvanceSum renderer.glyphs k s ∧
      (renderText s x y k renderer).2 - x = outlineAdvanceSum renderer.glyphs k s := by
  constructor
  · unfold measureTextWidth
    simp [hne, measureOutlineLoop_eq]
  · unfold renderText
    cases s with
    | nil => simp [outlineAdvanceSum_nil]
    | cons c rest => simp [hne, renderOutlineLoop_pen]

/-- C18 on the renderer `rendererAB` at the string A, code 1, B, C (no glyph
for C): measurement and pen advance from the origin 5 are both `19 + 19`. -/
theorem outline_measure_is_projection_of_layout_witness :
    rendererAB.glyphs.isEmpty = false ∧
      outlineAdvanceSum rendererAB.glyphs 1 [65, 1, 66, 67] = 38 ∧
      measureTextWidth [65, 1, 66, 67] 1 rendererAB = 38 ∧
      (renderText [65, 1, 66, 67] 5 0 1 rendererAB).2 - 5 = 38 := by
  have h := outline_measure_is_projection_of_layout rendererAB [65, 1, 66, 67] 5 0 1
    (by decide)
  have hsum : outlineAdvanceSum rendererAB.glyphs 1 [65, 1, 66, 67] = 38 := by
    have h65 : outOfRange 65 = false := by decide
    have h1 : outOfRange 1 = true := by decide
    have h66 : outOfRange 66 = false := by decide
    have h67 : outOfRange 67 = false := by decide
    have hne : ¬ ((65 : Fin 256) = 66) := by decide
    have hne2 : ¬ ((65 : Fin 256) = 67) := by decide
    have hne3 : ¬ ((66 : Fin 256) = 67) := by decide
    simp only [outlineAdvanceSum_cons, outlineAdvanceSum_nil, h65, h1, h66, h67]
    norm_num [rendererAB, GlyphTable.find, hne, hne2, hne3]
  refine ⟨by decide, hsum, ?_, ?_⟩
  · rw [h.1, hsum]
  · rw [h.2, hsum]

/-! ## Lemmas on the glyph loop -/

theorem GlyphTable.mem_of_find (m : GlyphTable) (c : Fin 256) (g : Glyph)
    (h : GlyphTable.find m c = some g) : (c, g) ∈ m := by
  induction m with
  | nil => simp [GlyphTable.find] at h
  | cons p rest ih =>
    obtain ⟨k, v⟩ := p
    unfold GlyphTable.find at h
    split_ifs at h with hk
    · simp only [Option.some.injEq] at h
      subst hk
      subst h
      exact List.mem_cons_self _ _
    · exact List.mem_cons_of_mem _ (ih h)

/-- The three outcomes of a round of the glyph loop with a bitmap: row wrap
with overflow, row wrap with placement, placement at the cursor. -/
theorem packGlyph_some (lineHeight : Int) (scale : ℚ) (c : Nat) (advance : Int)
    (b : GlyphBitmap) (s : PackState) :
    packGlyph lineHeight scale c advance (some b) s =
      if s.x + b.width + 1 > atlasWidth then
        if s.y + lineHeight + b.height > atlasHeight then
          (false, { s with x := 0, y := s.y + lineHeight })
        else
          (true,
            { x := 0 + b.width + 1
              y := s.y + lineHeight
              glyphs := s.glyphs.assign (toUChar c)
                (recordedGlyph scale advance b 0 (s.y + lineHeight))
              blits := s.blits ++ [⟨c, 0, s.y + lineHeight, b.width, b.height⟩] })
      else
        (true,
          { x := s.x + b.width + 1
            y := s.y
            glyphs := s.glyphs.assign (toUChar c) (recordedGlyph scale advance b s.x s.y)
            blits := s.blits ++ [⟨c, s.x, s.y, b.width, b.height⟩] }) := by
  unfold packGlyph recordedGlyph
  by_cases hw : s.x + b.width + 1 > atlasWidth
  · by_cases hov : s.y + lineHeight + b.height > atlasHeight
    · simp [hw, hov]
    · simp [hw, hov]
  · simp [hw]

theorem packGlyph_none (lineHeight : Int) (scale : ℚ) (c : Nat) (advance : Int)
    (s : PackState) : packGlyph lineHeight scale c advance none s = (true, s) := rfl

theorem recordedGlyph_rectangleOfSize (scale : ℚ) (advance : Int) (b : GlyphBitmap)
    (x y : Int) : rectangleOfSize (recordedGlyph scale advance b x y) := by
  unfold rectangleOfSize recordedGlyph
  simp only [atlasWidth, atlasHeight]
  push_cast
  constructor <;> ring

theorem assign_rectangleOfSize (m : GlyphTable) (c : Fin 256) (g : Glyph)
    (hm : ∀ p ∈ m, rectangleOfSize p.2) (hg : rectangleOfSize g) :
    ∀ p ∈ GlyphTable.assign m c g, rectangleOfSize p.2 := by
  intro p hp
  unfold GlyphTable.assign at hp
  rcases List.mem_cons.1 hp with rfl | hp
  · exact hg
  · exact hm p (List.mem_of_mem_filter hp)

theorem packGlyph_rectangleOfSize (lineHeight : Int) (scale : ℚ) (c : Nat) (advance : Int)
    (bitmap : Option GlyphBitmap) (s : PackState)
    (hs : ∀ p ∈ s.glyphs, rectangleOfSize p.2) :
    ∀ p ∈ (packGlyph lineHeight scale c advance bitmap s).2.glyphs, rectangleOfSize p.2 := by
  cases bitmap with
  | none => exact hs
  | some b =>
    rw [packGlyph_some]
    split_ifs
    · exact hs
    · exact assign_rectangleOfSize _ _ _ hs (recordedGlyph_rectangleOfSize _ _ _ _ _)
    · exact assign_rectangleOfSize _ _ _ hs (recordedGlyph_rectangleOfSize _ _ _ _ _)

theorem packLoop_rectangleOfSize (lineHeight : Int) (scale : ℚ)
    (inputs : List (Nat × Int × Option GlyphBitmap)) :
    ∀ s : PackState, (∀ p ∈ s.glyphs, rectangleOfSize p.2) →
      ∀ p ∈ (packLoop lineHeight scale inputs s).2.glyphs, rectangleOfSize p.2 := by
  induction inputs with
  | nil => intro s hs; exact hs
  | cons input rest ih =>
    intro s hs
    obtain ⟨c, advance, bitmap⟩ := input
    have hstep := packGlyph_rectangleOfSize lineHeight scale c advance bitmap s hs
    unfold packLoop
    cases hpg : packGlyph lineHeight scale c advance bitmap s with
    | mk flag s1 =>
      rw [hpg] at hstep
      cases flag
      · exact hstep
      · exact ih s1 hstep

theorem loadTTFFont_rectangleOfSize (file : FontFile) (renderer : TextRenderer) (fontSize : ℚ)
    (hr : ∀ p ∈ renderer.glyphs, rectangleOfSize p.2) :
    ∀ p ∈ (loadTTFFont file renderer fontSize).2.glyphs, rectangleOfSize p.2 := by
  cases file with
  | cannotOpen => exact hr
  | cannotRead => exact hr
  | notAFont => exact hr
  | font f =>
    rw [loadTTFFont_font]
    have hloop := packLoop_rectangleOfSize (lineHeightOf fontSize)
      (f.scaleForPixelHeight fontSize) (glyphInputs f (f.scaleForPixelHeight fontSize))
      { x := 0, y := 0, glyphs := renderer.glyphs, blits := [] } hr
    cases hpl : packLoop (lineHeightOf fontSize) (f.scaleForPixelHeight fontSize)
        (glyphInputs f (f.scaleForPixelHeight fontSize))
        { x := 0, y := 0, glyphs := renderer.glyphs, blits := [] } with
    | mk flag s1 =>
      rw [hpl] at hloop
      cases flag
      · exact hloop
      · exact hloop

/-! ## Glyph rectangles (C17) -/

/-- C17. Non-degenerate rectangles: every Glyph recorded by `loadTTFFont` (in a
table that was empty, or held glyphs recorded by it before) has
`x1 = x0 + width / 512` and `y1 = y0 + height / 512`; hence when its bitmap has
`width > 0` and `height > 0`, `x1 > x0` and `y1 > y0`. -/
theorem recorded_rectangles_non_degenerate (file : FontFile) (renderer : TextRenderer)
    (fontSize : ℚ) (hr : ∀ p ∈ renderer.glyphs, rectangleOfSize p.2)
    (c : Fin 256) (g : Glyph)
    (hg : (loadTTFFont file renderer fontSize).2.glyphs.find c = some g) :
    (g.x1 = g.x0 + (g.width : ℚ) / 512 ∧ g.y1 = g.y0 + (g.height : ℚ) / 512) ∧
      (0 < g.width → 0 < g.height → g.x1 > g.x0 ∧ g.y1 > g.y0) := by
  have hmem := GlyphTable.mem_of_find _ c g hg
  have hrect : rectangleOfSize g :=
    loadTTFFont_rectangleOfSize file renderer fontSize hr (c, g) hmem
  refine ⟨hrect, ?_⟩
  intro hw hh
  obtain ⟨h1, h2⟩ := hrect
  have hwq : (0 : ℚ) < (g.width : ℚ) := by exact_mod_cast hw
  have hhq : (0 : ℚ) < (g.height : ℚ) := by exact_mod_cast hh
  constructor
  · rw [h1]
    linarith [div_pos hwq (show (0 : ℚ) < 512 by norm_num)]
  · rw [h2]
    linarith [div_pos hhq (show (0 : ℚ) < 512 by norm_num)]

/-- C17 on the font `fontB` loaded at size 32 into a fresh renderer: the glyph
recorded for the letter A, of size 16 x 24 at the atlas origin, has the
rectangle `(0, 0)-(16/512, 24/512)`. -/
theorem recorded_rectangles_non_degenerate_witness :
    ∃ g, (loadTTFFont (FontFile.font fontB) TextRenderer.fresh 32).2.glyphs.find 65 = some g ∧
      g.width = 16 ∧ g.height = 24 ∧ g.x0 = 0 ∧ g.y0 = 0 ∧
      g.x1 = 16 / 512 ∧ g.y1 = 24 / 512 ∧ g.x1 > g.x0 ∧ g.y1 > g.y0 := by
  have hfind : (loadTTFFont (FontFile.font fontB) TextRenderer.fresh 32).2.glyphs.find 65
      = some (recordedGlyph (32 / 2048) 1229 ⟨16, 24, 1, -24⟩ 0 0) := by
    rw [loadTTFFont_font, lineHeightOf_32]
    simp +decide [glyphInputs, fontB, List.range, List.range.loop, packLoop, packGlyph,
      GlyphTable.assign, GlyphTable.find, TextRenderer.fresh, toUChar, recordedGlyph]
  have h := recorded_rectangles_non_degenerate (FontFile.font fontB) TextRenderer.fresh 32
    (by intro p hp; exact absurd hp (List.not_mem_nil _)) 65 _ hfind
  have hnd := h.2 (by decide) (by decide)
  refine ⟨_, hfind, rfl, rfl, ?_, ?_, ?_, ?_, hnd.1, hnd.2⟩
  · norm_num [recordedGlyph]
  · norm_num [recordedGlyph]
  · norm_num [recordedGlyph, atlasWidth]
  · norm_num [recordedGlyph, atlasHeight]

/-! ## Row-based placement (C19) -/

theorem rowInvariant_place (lineHeight : Int) (s : PackState) (nb : Blit) (g : GlyphTable)
    (hs : rowInvariant lineHeight s)
    (hpos : (nb.x = s.x ∧ nb.y = s.y) ∨ (nb.x = 0 ∧ nb.y = s.y + lineHeight)) :
    rowInvariant lineHeight
      { x := nb.x + nb.width + 1, y := nb.y, glyphs := g, blits := s.blits ++ [nb] } := by
  obtain ⟨hchain, hhead, hmul, ⟨n, hn⟩, hlast, hnil⟩ := hs
  refine ⟨?_, ?_, ?_, ?_, ?_, ?_⟩
  · refine List.Chain'.append hchain (List.chain'_singleton nb) ?_
    intro b hb y hy
    simp only [List.head?_cons, Option.mem_def, Option.some.injEq] at hy
    subst hy
    obtain ⟨h1, h2⟩ := hlast b hb
    rcases hpos with ⟨hx, hy⟩ | ⟨hx, hy⟩
    · exact Or.inl ⟨by omega, by omega⟩
    · exact Or.inr ⟨hx, by omega⟩
  · intro b hb
    cases hbl : s.blits with
    | nil =>
      rw [hbl] at hb
      simp only [List.nil_append, List.head?_cons, Option.mem_def, Option.some.injEq] at hb
      subst hb
      rcases hpos with ⟨hx, _⟩ | ⟨hx, _⟩
      · rw [hx]
        exact hnil hbl
      · exact hx
    | cons b0 rest =>
      rw [hbl] at hb
      simp only [List.cons_append, List.head?_cons, Option.mem_def, Option.some.injEq] at hb
      subst hb
      exact hhead b0 (by rw [hbl]; simp)
  · intro b hb
    rcases List.mem_append.1 hb with hb | hb
    · exact hmul b hb
    · simp only [List.mem_singleton] at hb
      subst hb
      rcases hpos with ⟨_, hy⟩ | ⟨_, hy⟩
      · exact ⟨n, by rw [hy, hn]⟩
      · exact ⟨n + 1, by rw [hy, hn]; push_cast; ring⟩
  · rcases hpos with ⟨_, hy⟩ | ⟨_, hy⟩
    · exact ⟨n, by simp only [hy, hn]⟩
    · exact ⟨n + 1, by simp only [hy, hn]; push_cast; ring⟩
  · intro b hb
    rw [Option.mem_def, List.getLast?_concat, Option.some.injEq] at hb
    subst hb
    exact ⟨rfl, rfl⟩
  · intro h
    simp at h

theorem packGlyph_rowInvariant (lineHeight : Int) (scale : ℚ) (c : Nat) (advance : Int)
    (bitmap : Option GlyphBitmap) (s s1 : PackState) (hs : rowInvariant lineHeight s)
    (h : packGlyph lineHeight scale c advance bitmap s = (true, s1)) :
    rowInvariant lineHeight s1 := by
  cases bitmap with
  | none =>
    rw [packGlyph_none] at h
    simp only [Prod.mk.injEq, true_and] at h
    subst h
    exact hs
  | some b =>
    rw [packGlyph_some] at h
    split_ifs at h
    · simp at h
    · simp only [Prod.mk.injEq, true_and] at h
      subst h
      exact rowInvariant_place lineHeight s ⟨c, 0, s.y + lineHeight, b.width, b.height⟩ _ hs
        (Or.inr ⟨rfl, rfl⟩)
    · simp only [Prod.mk.injEq, true_and] at h
      subst h
      exact rowInvariant_place lineHeight s ⟨c, s.x, s.y, b.width, b.height⟩ _ hs
        (Or.inl ⟨rfl, rfl⟩)

theorem packGlyph_false_blits (lineHeight : Int) (scale : ℚ) (c : Nat) (advance : Int)
    (bitmap : Option GlyphBitmap) (s s1 : PackState)
    (h : packGlyph lineHeight scale c advance bitmap s = (false, s1)) :
    s1.blits = s.blits := by
  cases bitmap with
  | none =>
    rw [packGlyph_none] at h
    simp at h
  | some b =>
    rw [packGlyph_some] at h
    split_ifs at h
    · simp only [Prod.mk.injEq, true_and] at h
      subst h
      rfl
    · simp at h
    · simp at h

theorem packLoop_rows (lineHeight : Int) (scale : ℚ)
    (inputs : List (Nat × Int × Option GlyphBitmap)) :
    ∀ s : PackState, rowInvariant lineHeight s →
      List.Chain' (followsInRow lineHeight) (packLoop lineHeight scale inputs s).2.blits ∧
        (∀ b ∈ (packLoop lineHeight scale inputs s).2.blits.head?, b.x = 0) ∧
        (∀ b ∈ (packLoop lineHeight scale inputs s).2.blits,
          ∃ n : Nat, b.y = (n : Int) * lineHeight) := by
  induction inputs with
  | nil => intro s hs; exact ⟨hs.1, hs.2.1, hs.2.2.1⟩
  | cons input rest ih =>
    intro s hs
    obtain ⟨c, advance, bitmap⟩ := input
    unfold packLoop
    cases hpg : packGlyph lineHeight scale c advance bitmap s with
    | mk flag s1 =>
      cases flag
      · have hb := packGlyph_false_blits lineHeight scale c advance bitmap s s1 hpg
        simp only [hb]
        exact ⟨hs.1, hs.2.1, hs.2.2.1⟩
      · exact ih s1 (packGlyph_rowInvariant lineHeight scale c advance bitmap s s1 hs hpg)

/-- C19. Row-based placement with 1-pixel padding. In a round of the glyph
loop of `loadTTFFont` that places a bitmap of width `w`, the glyph goes to the
cursor `(x, y)` when `x + w + 1 <= atlasWidth` and to `(0, y + lineHeight)`
otherwise, and the cursor `x` becomes the placed `x` plus `w + 1`. Hence, for
the placements of the whole loop (started, as in `loadTTFFont`, at the cursor
`(0, 0)` with an empty atlas), in order: each placed glyph follows the one
before it either in the same row, exactly one pixel column after its bitmap,
or at `x = 0` one row height lower; the first placed glyph is at `x = 0`; and
the `y` of every placed glyph is a multiple of `lineHeight`. -/
theorem row_placement_with_padding (lineHeight : Int) (scale : ℚ)
    (inputs : List (Nat × Int × Option GlyphBitmap)) (glyphs : GlyphTable) :
    (∀ (c : Nat) (advance : Int) (b : GlyphBitmap) (s s1 : PackState),
        packGlyph lineHeight scale c advance (some b) s = (true, s1) →
        (s.x + b.width + 1 ≤ atlasWidth →
          s1.blits = s.blits ++ [⟨c, s.x, s.y, b.width, b.height⟩] ∧
          s1.x = s.x + b.width + 1 ∧ s1.y = s.y) ∧
        (¬ (s.x + b.width + 1 ≤ atlasWidth) →
          s1.blits = s.blits ++ [⟨c, 0, s.y + lineHeight, b.width, b.height⟩] ∧
          s1.x = 0 + b.width + 1 ∧ s1.y = s.y + lineHeight)) ∧
      List.Chain' (followsInRow lineHeight)
        (packLoop lineHeight scale inputs
          { x := 0, y := 0, glyphs := glyphs, blits := [] }).2.blits ∧
      (∀ b ∈ (packLoop lineHeight scale inputs
          { x := 0, y := 0, glyphs := glyphs, blits := [] }).2.blits.head?, b.x = 0) ∧
      (∀ b ∈ (packLoop lineHeight scale inputs
          { x := 0, y := 0, glyphs := glyphs, blits := [] }).2.blits,
        ∃ n : Nat, b.y = (n : Int) * lineHeight) := by
  refine ⟨?_, ?_⟩
  · intro c advance b s s1 h
    rw [packGlyph_some] at h
    split_ifs at h with hw hov
    · simp at h
    · simp only [Prod.mk.injEq, true_and] at h
      subst h
      exact ⟨fun hle => absurd hle (by omega), fun _ => ⟨rfl, rfl, rfl⟩⟩
    · simp only [Prod.mk.injEq, true_and] at h
      subst h
      exact ⟨fun _ => ⟨rfl, rfl, rfl⟩, fun hn => absurd (by omega) hn⟩
  · apply packLoop_rows
    refine ⟨List.chain'_nil, ?_, ?_, ⟨0, by simp⟩, ?_, fun _ => rfl⟩
    · intro b hb
      simp at hb
    · intro b hb
      simp at hb
    · intro b hb
      simp at hb

/-- C19 on three bitmaps of widths 300, 200 and 100 with row height 38: the
first two share the row `y = 0` at `x = 0` and `x = 301` (one padding column
after the 300 columns of the first), the third does not fit (`502 + 101 > 512`)
and opens the row `y = 38` at `x = 0`. -/
theorem row_placement_with_padding_witness :
    packGlyph 38 1 66 0 (some ⟨200, 30, 0, 0⟩) ⟨301, 0, [], [⟨65, 0, 0, 300, 30⟩]⟩
        = (true, ⟨502, 0, (packGlyph 38 1 66 0 (some ⟨200, 30, 0, 0⟩)
            ⟨301, 0, [], [⟨65, 0, 0, 300, 30⟩]⟩).2.glyphs,
            [⟨65, 0, 0, 300, 30⟩, ⟨66, 301, 0, 200, 30⟩]⟩) ∧
      (packLoop 38 1
          [(65, 0, some ⟨300, 30, 0, 0⟩), (66, 0, some ⟨200, 30, 0, 0⟩),
           (67, 0, some ⟨100, 30, 0, 0⟩)]
          { x := 0, y := 0, glyphs := [], blits := [] }).2.blits
        = [⟨65, 0, 0, 300, 30⟩, ⟨66, 301, 0, 200, 30⟩, ⟨67, 0, 38, 100, 30⟩] ∧
      List.Chain' (followsInRow 38)
        [⟨65, 0, 0, 300, 30⟩, ⟨66, 301, 0, 200, 30⟩, ⟨67, 0, 38, 100, 30⟩] := by
  have hstep : packGlyph 38 1 66 0 (some ⟨200, 30, 0, 0⟩) ⟨301, 0, [], [⟨65, 0, 0, 300, 30⟩]⟩
      = (true, ⟨502, 0, (packGlyph 38 1 66 0 (some ⟨200, 30, 0, 0⟩)
          ⟨301, 0, [], [⟨65, 0, 0, 300, 30⟩]⟩).2.glyphs,
          [⟨65, 0, 0, 300, 30⟩, ⟨66, 301, 0, 200, 30⟩]⟩) := by
    rw [packGlyph_some]
    rfl
  have hloop : (packLoop 38 1
      [(65, 0, some ⟨300, 30, 0, 0⟩), (66, 0, some ⟨200, 30, 0, 0⟩),
       (67, 0, some ⟨100, 30, 0, 0⟩)]
      { x := 0, y := 0, glyphs := [], blits := [] }).2.blits
      = [⟨65, 0, 0, 300, 30⟩, ⟨66, 301, 0, 200, 30⟩, ⟨67, 0, 38, 100, 30⟩] := by decide
  have h := row_placement_with_padding 38 1
    [(65, 0, some ⟨300, 30, 0, 0⟩), (66, 0, some ⟨200, 30, 0, 0⟩),
     (67, 0, some ⟨100, 30, 0, 0⟩)] []
  have hrule := (h.1 66 0 ⟨200, 30, 0, 0⟩ ⟨301, 0, [], [⟨65, 0, 0, 300, 30⟩]⟩ _ hstep).1
    (by decide)
  have hchain := h.2.1
  rw [hloop] at hchain
  exact ⟨hstep, hloop, hchain⟩

/-! ## Candidate selection (C16) -/

theorem packGlyph_flag_cursor (lineHeight : Int) (scale : ℚ) (c : Nat) (advance : Int)
    (bitmap : Option GlyphBitmap) (s t : PackState) (hx : s.x = t.x) (hy : s.y = t.y) :
    (packGlyph lineHeight scale c advance bitmap s).1
        = (packGlyph lineHeight scale c advance bitmap t).1 ∧
      (packGlyph lineHeight scale c advance bitmap s).2.x
        = (packGlyph lineHeight scale c advance bitmap t).2.x ∧
      (packGlyph lineHeight scale c advance bitmap s).2.y
        = (packGlyph lineHeight scale c advance bitmap t).2.y := by
  cases bitmap with
  | none => exact ⟨rfl, hx, hy⟩
  | some b =>
    rw [packGlyph_some, packGlyph_some, hx, hy]
    split_ifs <;> exact ⟨rfl, rfl, rfl⟩

/-- The flag of the glyph loop depends on the cursor only, not on the glyph
table or the atlas. -/
theorem packLoop_flag_cursor (lineHeight : Int) (scale : ℚ)
    (inputs : List (Nat × Int × Option GlyphBitmap)) :
    ∀ s t : PackState, s.x = t.x → s.y = t.y →
      (packLoop lineHeight scale inputs s).1 = (packLoop lineHeight scale inputs t).1 := by
  induction inputs with
  | nil => intro s t _ _; rfl
  | cons input rest ih =>
    intro s t hx hy
    obtain ⟨c, advance, bitmap⟩ := input
    obtain ⟨hf, hx1, hy1⟩ := packGlyph_flag_cursor lineHeight scale c advance bitmap s t hx hy
    unfold packLoop
    cases hs : packGlyph lineHeight scale c advance bitmap s with
    | mk fs s1 =>
      cases ht : packGlyph lineHeight scale c advance bitmap t with
      | mk ft t1 =>
        rw [hs, ht] at hf hx1 hy1
        simp only at hf hx1 hy1
        subst hf
        cases fs
        · rfl
        · exact ih s1 t1 hx1 hy1

/-- The flag `loadTTFFont` returns does not depend on the renderer passed. -/
theorem loadTTFFont_flag (file : FontFile) (r1 r2 : TextRenderer) (fontSize : ℚ) :
    (loadTTFFont file r1 fontSize).1 = (loadTTFFont file r2 fontSize).1 := by
  cases file with
  | cannotOpen => rfl
  | cannotRead => rfl
  | notAFont => rfl
  | font f =>
    rw [loadTTFFont_font, loadTTFFont_font]
    have h := packLoop_flag_cursor (lineHeightOf fontSize) (f.scaleForPixelHeight fontSize)
      (glyphInputs f (f.scaleForPixelHeight fontSize))
      { x := 0, y := 0, glyphs := r1.glyphs, blits := [] }
      { x := 0, y := 0, glyphs := r2.glyphs, blits := [] } rfl rfl
    cases h1 : packLoop (lineHeightOf fontSize) (f.scaleForPixelHeight fontSize)
        (glyphInputs f (f.scaleForPixelHeight fontSize))
        { x := 0, y := 0, glyphs := r1.glyphs, blits := [] } with
    | mk f1 s1 =>
      cases h2 : packLoop (lineHeightOf fontSize) (f.scaleForPixelHeight fontSize)
          (glyphInputs f (f.scaleForPixelHeight fontSize))
          { x := 0, y := 0, glyphs := r2.glyphs, blits := [] } with
      | mk f2 s2 =>
        rw [h1, h2] at h
        simp only at h
        subst h
        cases f1 <;> rfl

/-- A successful `loadTTFFont` leaves an outline atlas as font texture. -/
theorem loadTTFFont_true_texture (file : FontFile) (renderer r : TextRenderer) (fontSize : ℚ)
    (h : loadTTFFont file renderer fontSize = (true, r)) :
    r.fontTexture ≠ FontTexture.fallbackAtlas := by
  cases file with
  | cannotOpen => simp [loadTTFFont] at h
  | cannotRead => simp [loadTTFFont] at h
  | notAFont => simp [loadTTFFont] at h
  | font f =>
    rw [loadTTFFont_font] at h
    cases hp : packLoop (lineHeightOf fontSize) (f.scaleForPixelHeight fontSize)
        (glyphInputs f (f.scaleForPixelHeight fontSize))
        { x := 0, y := 0, glyphs := renderer.glyphs, blits := [] } with
    | mk flag s =>
      rw [hp] at h
      cases flag
      · simp at h
      · simp only [Prod.mk.injEq, true_and] at h
        subst h
        simp

theorem candidateAttempts_eq (candidates : List (Option FontFile)) :
    ∀ (start : Nat) (renderer : TextRenderer),
      candidateAttempts candidates start renderer
        = upToFirstSuccess (existingCandidates candidates start) := by
  induction candidates with
  | nil => intro start renderer; rfl
  | cons cand rest ih =>
    intro start renderer
    cases cand with
    | none => simp only [candidateAttempts, existingCandidates, ih]
    | some file =>
      have hflag := loadTTFFont_flag file renderer TextRenderer.fresh 32
      unfold candidateAttempts existingCandidates
      cases hl : loadTTFFont file renderer 32 with
      | mk flag r =>
        rw [hl] at hflag
        simp only at hflag
        rw [← hflag]
        cases flag
        · simp only [upToFirstSuccess, ih]
        · simp only [upToFirstSuccess]

/-- The candidate loop has loaded a font exactly when one of its calls of
`loadTTFFont` returned true, and then an outline atlas is the font texture. -/
theorem candidateLoop_flag (candidates : List (Option FontFile)) :
    ∀ (start : Nat) (renderer : TextRenderer),
      ((candidateLoop candidates renderer).1 = true ↔
        ∃ a ∈ candidateAttempts candidates start renderer, a.2 = true) ∧
      ((candidateLoop candidates renderer).1 = true →
        (candidateLoop candidates renderer).2.fontTexture ≠ FontTexture.fallbackAtlas) := by
  induction candidates with
  | nil => intro start renderer; simp [candidateLoop, candidateAttempts]
  | cons cand rest ih =>
    intro start renderer
    cases cand with
    | none =>
      simp only [candidateLoop, candidateAttempts]
      exact ih (start + 1) renderer
    | some file =>
      unfold candidateLoop candidateAttempts
      cases hl : loadTTFFont file renderer 32 with
      | mk flag r =>
        cases flag
        · simp only [List.mem_cons, exists_eq_or_imp, Bool.false_eq_true, false_or]
          exact ih (start + 1) r
        · simp only [List.mem_singleton, exists_eq_left, true_iff, forall_true_left, true_and]
          exact loadTTFFont_true_texture file renderer r 32 hl

theorem upToFirstSuccess_prefix (l : List (Nat × Bool)) : upToFirstSuccess l <+: l := by
  induction l with
  | nil => exact List.prefix_refl _
  | cons a rest ih =>
    obtain ⟨i, b⟩ := a
    cases b
    · simp only [upToFirstSuccess]
      exact (List.prefix_cons_inj _).2 ih
    · simp only [upToFirstSuccess]
      exact ⟨rest, rfl⟩

theorem upToFirstSuccess_stops (l : List (Nat × Bool)) :
    ∀ (pre post : List (Nat × Bool)) (a : Nat × Bool),
      upToFirstSuccess l = pre ++ a :: post → a.2 = true → post = [] := by
  induction l with
  | nil =>
    intro pre post a h _
    simp [upToFirstSuccess] at h
  | cons a0 rest ih =>
    intro pre post a h ha
    obtain ⟨i, b⟩ := a0
    cases b
    · simp only [upToFirstSuccess] at h
      cases pre with
      | nil =>
        simp only [List.nil_append, List.cons.injEq] at h
        rw [← h.1] at ha
        exact absurd ha (by simp)
      | cons p pre1 =>
        simp only [List.cons_append, List.cons.injEq] at h
        exact ih pre1 post a h.2 ha
    · simp only [upToFirstSuccess] at h
      cases pre with
      | nil =>
        simp only [List.nil_append, List.cons.injEq] at h
        exact h.2.symm
      | cons p pre1 =>
        simp only [List.cons_append, List.cons.injEq] at h
        have := h.2
        simp at this

theorem existingCandidates_spec (candidates : List (Option FontFile)) :
    ∀ start : Nat,
      (∀ a ∈ existingCandidates candidates start,
        start ≤ a.1 ∧ ∃ file, candidates[a.1 - start]? = some (some file) ∧
          a.2 = (loadTTFFont file TextRenderer.fresh 32).1) ∧
      (existingCandidates candidates start).Pairwise (fun a b => a.1 < b.1) := by
  induction candidates with
  | nil => intro start; simp [existingCandidates]
  | cons cand rest ih =>
    intro start
    obtain ⟨hmem, hpw⟩ := ih (start + 1)
    have hshift : ∀ a ∈ existingCandidates rest (start + 1),
        start ≤ a.1 ∧ ∃ file, (cand :: rest)[a.1 - start]? = some (some file) ∧
          a.2 = (loadTTFFont file TextRenderer.fresh 32).1 := by
      intro a ha
      obtain ⟨hle, file, hfile, hflag⟩ := hmem a ha
      refine ⟨by omega, file, ?_, hflag⟩
      have hidx : a.1 - start = (a.1 - (start + 1)) + 1 := by omega
      rw [hidx, List.getElem?_cons_succ]
      exact hfile
    cases cand with
    | none =>
      simp only [existingCandidates]
      exact ⟨hshift, hpw⟩
    | some file =>
      simp only [existingCandidates]
      refine ⟨?_, ?_⟩
      · intro a ha
        rcases List.mem_cons.1 ha with rfl | ha
        · exact ⟨le_refl _, file, by simp, rfl⟩
        · exact hshift a ha
      · refine List.Pairwise.cons ?_ hpw
        intro a ha
        have := (hmem a ha).1
        simp only
        omega

/-! ## The fallback buffer (C21, C24) -/

theorem storePixels_apply (writes : List Int) :
    ∀ (fontData : Int → Nat) (j : Int),
      storePixels writes fontData j = if j ∈ writes then 255 else fontData j := by
  induction writes with
  | nil => intro fontData j; simp [storePixels]
  | cons idx rest ih =>
    intro fontData j
    have hstep : storePixels (idx :: rest) fontData = storePixels rest (storePixel fontData idx) :=
      rfl
    rw [hstep, ih]
    by_cases hr : j ∈ rest
    · simp [hr]
    · by_cases hj : j = idx
      · simp [hj, storePixel]
      · simp [hr, hj, storePixel]

theorem cellOrigin_nat (i : Nat) :
    cellOrigin ((32 + i : Nat) : Int) = (((i % 16 : Nat) : Int) * 8, ((i / 16 : Nat) : Int) * 8) := by
  have h : ((32 + i : Nat) : Int) - 32 = (i : Int) := by omega
  unfold cellOrigin
  simp only [h]
  rw [Int.tdiv_eq_ediv (by omega) (by omega), Int.tmod_eq_emod (by omega) (by omega)]
  apply Prod.ext
  · simp only
    omega
  · simp only
    omega

/-- The writes of the drawing loop of `createBitmapFontTexture`: one for each
code `32 + i`, `i < 95`, and each `setPixel` call `(x, y)` of `drawChar` for
that code, at the pixel `(8 * (i mod 16) + x, 8 * (i / 16) + y)`. -/
theorem mem_fontDataWrites (idx : Int) :
    idx ∈ fontDataWrites ↔
      ∃ i : Nat, i < 95 ∧ ∃ p ∈ drawCharCalls (toUChar (32 + i)),
        idx = (((i / 16 : Nat) : Int) * 8 + p.2) * 128 + (((i % 16 : Nat) : Int) * 8 + p.1) := by
  unfold fontDataWrites
  simp only [List.mem_flatMap, List.mem_range, drawChar, List.mem_map, setPixel, cellOrigin_nat]
  constructor
  · rintro ⟨i, hi, p, hp, rfl⟩
    exact ⟨i, hi, p, hp, rfl⟩
  · rintro ⟨i, hi, p, hp, rfl⟩
    exact ⟨i, hi, p, hp, rfl⟩

/-- Whether the pixel `(px, py)` of the fallback buffer is written by the
drawing loop, in terms of the cell it lies in. -/
theorem pixel_mem_fontDataWrites (px py : Int) (hx : 0 ≤ px ∧ px < 128)
    (hy : 0 ≤ py ∧ py < 64) :
    py * 128 + px ∈ fontDataWrites ↔
      (16 * (py / 8) + px / 8 ≤ 94 ∧
        (px % 8, py % 8) ∈ drawCharCalls (toUChar (32 + (16 * (py / 8) + px / 8).toNat))) := by
  rw [mem_fontDataWrites]
  constructor
  · rintro ⟨i, hi, p, hp, heq⟩
    obtain ⟨h1, h2, h3, h4⟩ := drawCharCalls_in_cell _ p hp
    have hcell : 16 * (py / 8) + px / 8 = (i : Int) := by omega
    have hpx : px % 8 = p.1 := by omega
    have hpy : py % 8 = p.2 := by omega
    rw [hcell, hpx, hpy, Int.toNat_ofNat]
    exact ⟨by omega, hp⟩
  · rintro ⟨hle, hp⟩
    refine ⟨(16 * (py / 8) + px / 8).toNat, by omega, (px % 8, py % 8), hp, ?_⟩
    simp only
    omega

/-- C21. Fallback atlas content: after the drawing loop of
`createBitmapFontTexture`, for every pixel `(px, py)` of the 128x64 buffer
(index `py * 128 + px`), with `i = 16 * (py / 8) + px / 8` the number of its
cell, the value is 255 if `i <= 94` and `(px mod 8, py mod 8)` belongs to the
pattern `drawChar` draws for the code `32 + i`, and 0 otherwise. In
particular a write made while drawing the code `32 + j` hits a pixel of the
cell `j` only, and the pixels of the cell of the space (`i = 0`) and of the
cells with `i >= 95` are all zero. -/
theorem fallback_atlas_content (px py : Int) (hx : 0 ≤ px ∧ px < 128)
    (hy : 0 ≤ py ∧ py < 64) :
    fontDataAfterLoop (py * 128 + px) =
        (if 16 * (py / 8) + px / 8 ≤ 94 ∧
            (px % 8, py % 8) ∈
              drawCharCalls (toUChar (32 + (16 * (py / 8) + px / 8).toNat)) then 255
          else 0) ∧
      (∀ j : Nat, j < 95 →
        py * 128 + px ∈ drawChar 128 (cellOrigin ((32 + j : Nat) : Int)).1
            (cellOrigin ((32 + j : Nat) : Int)).2 (toUChar (32 + j)) →
          16 * (py / 8) + px / 8 = (j : Int)) ∧
      (16 * (py / 8) + px / 8 = 0 → fontDataAfterLoop (py * 128 + px) = 0) ∧
      (95 ≤ 16 * (py / 8) + px / 8 → fontDataAfterLoop (py * 128 + px) = 0) := by
  have hval : fontDataAfterLoop (py * 128 + px) =
      (if 16 * (py / 8) + px / 8 ≤ 94 ∧
          (px % 8, py % 8) ∈
            drawCharCalls (toUChar (32 + (16 * (py / 8) + px / 8).toNat)) then 255
        else 0) := by
    unfold fontDataAfterLoop
    rw [storePixels_apply]
    exact if_congr (pixel_mem_fontDataWrites px py hx hy) rfl rfl
  refine ⟨hval, ?_, ?_, ?_⟩
  · intro j _ hmem
    rw [cellOrigin_nat] at hmem
    simp only [drawChar, List.mem_map, setPixel] at hmem
    obtain ⟨p, hp, heq⟩ := hmem
    obtain ⟨h1, h2, h3, h4⟩ := drawCharCalls_in_cell _ p hp
    omega
  · intro h0
    rw [hval, h0]
    have hspace : drawCharCalls (toUChar (32 + (0 : Int).toNat)) = [] := by decide
    rw [hspace]
    simp
  · intro h95
    rw [hval, if_neg]
    intro h
    omega

/-- C21 at three pixels: `(9, 17)` in the cell of the letter A (cell 33, cell
offset `(1, 1)`, set by the top bar of A) holds 255; `(8, 16)`, the corner
`(0, 0)` of the same cell, holds 0; `(127, 63)` in the last cell (cell 127,
no character) holds 0. -/
theorem fallback_atlas_content_witness :
    fontDataAfterLoop (17 * 128 + 9) = 255 ∧
      fontDataAfterLoop (16 * 128 + 8) = 0 ∧
      fontDataAfterLoop (63 * 128 + 127) = 0 := by
  have h1 := (fallback_atlas_content 9 17 (by decide) (by decide)).1
  have h2 := (fallback_atlas_content 8 16 (by decide) (by decide)).1
  have h3 := (fallback_atlas_content 127 63 (by decide) (by decide)).2.2.2 (by decide)
  refine ⟨?_, ?_, h3⟩
  · rw [h1]
    decide
  · rw [h2]
    decide

/-- C24. Fallback atlas construction cannot write out of bounds: for every code
`c` in 32..126, every `setPixel` call `(x, y)` made while
`createBitmapFontTexture` draws `c` has `0 <= pixelX < 128` and
`0 <= pixelY < 64`, and the index `pixelY * 128 + pixelX` it writes lies in
`[0, 8192)`, the size of the buffer; so does every write of the whole drawing
loop. `setPixel` itself makes no test: from the last cell, the offset `(8, 8)`
would give the index 8320. -/
theorem fallback_writes_in_bounds (c : Fin 256) (hlo : 32 ≤ c.val) (hhi : c.val ≤ 126) :
    (∀ p ∈ drawCharCalls c,
        0 ≤ (cellOrigin c.val).1 + p.1 ∧ (cellOrigin c.val).1 + p.1 < 128 ∧
        0 ≤ (cellOrigin c.val).2 + p.2 ∧ (cellOrigin c.val).2 + p.2 < 64 ∧
        setPixel 128 (cellOrigin c.val).1 (cellOrigin c.val).2 p.1 p.2
          = ((cellOrigin c.val).2 + p.2) * 128 + ((cellOrigin c.val).1 + p.1)) ∧
      (∀ idx ∈ drawChar 128 (cellOrigin c.val).1 (cellOrigin c.val).2 c,
        0 ≤ idx ∧ idx < 8192) ∧
      (∀ idx ∈ fontDataWrites, 0 ≤ idx ∧ idx < 8192) ∧
      setPixel 128 120 56 8 8 = 8320 := by
  have hcell : 0 ≤ (cellOrigin c.val).1 ∧ (cellOrigin c.val).1 + 8 ≤ 128 ∧
      0 ≤ (cellOrigin c.val).2 ∧ (cellOrigin c.val).2 + 8 ≤ 64 := by
    simp only [cellOrigin]
    rw [Int.tdiv_eq_ediv (show (0 : Int) ≤ (c.val : Int) - 32 by omega) (by omega),
      Int.tmod_eq_emod (show (0 : Int) ≤ (c.val : Int) - 32 by omega) (by omega)]
    omega
  refine ⟨?_, ?_, ?_, by decide⟩
  · intro p hp
    obtain ⟨h1, h2, h3, h4⟩ := drawCharCalls_in_cell c p hp
    refine ⟨by omega, by omega, by omega, by omega, rfl⟩
  · intro idx hidx
    simp only [drawChar, List.mem_map, setPixel] at hidx
    obtain ⟨p, hp, rfl⟩ := hidx
    obtain ⟨h1, h2, h3, h4⟩ := drawCharCalls_in_cell c p hp
    omega
  · intro idx hidx
    obtain ⟨i, hi, p, hp, rfl⟩ := (mem_fontDataWrites idx).1 hidx
    obtain ⟨h1, h2, h3, h4⟩ := drawCharCalls_in_cell _ p hp
    omega

/-- C24 at the tilde (code 126, the last code drawn, cell of origin
`(112, 40)`): its writes lie in `[0, 8192)`; the largest is the index of the
pixel `(118, 46)`. -/
theorem fallback_writes_in_bounds_witness :
    cellOrigin 126 = (112, 40) ∧
      (∀ idx ∈ drawChar 128 112 40 126, 0 ≤ idx ∧ idx < 8192) ∧
      (46 * 128 + 118 : Int) ∈ drawChar 128 112 40 126 := by
  have h := fallback_writes_in_bounds 126 (by decide) (by decide)
  refine ⟨by decide, ?_, by decide⟩
  intro idx hidx
  exact h.2.1 idx hidx

/-! ## The copy loop (C23) -/

/-- The writes of the copy loop are exactly those for the bitmap pixels
`(gx, gy)` whose atlas position passes the bounds test. -/
theorem mem_copyLoop_iff (b : Blit) (p : Int × Int) :
    p ∈ copyLoop b ↔
      ∃ gx gy : Nat, (gx : Int) < b.width ∧ (gy : Int) < b.height ∧
        b.x + (gx : Int) < atlasWidth ∧ b.y + (gy : Int) < atlasHeight ∧
        p = ((b.y + (gy : Int)) * atlasWidth + (b.x + (gx : Int)),
              (gy : Int) * b.width + (gx : Int)) := by
  constructor
  · exact mem_copyLoop b p
  · rintro ⟨gx, gy, h1, h2, h3, h4, rfl⟩
    unfold copyLoop
    simp only [List.mem_flatMap, List.mem_filterMap, List.mem_range]
    refine ⟨gy, by omega, gx, by omega, ?_⟩
    rw [if_pos ⟨h3, h4⟩]

/-- C23. The atlas copy is memory-safe by clipping: for every glyph bitmap
placed at a cursor with `x >= 0` and `y >= 0` (of any width and height, in
particular with `width >= 0` and `height >= 0`; with a negative one the loop
makes no round), every write of the copy loop goes to an atlas index in
`[0, 512 * 512)` and reads a bitmap index in `[0, width * height)`; and the
writes made are exactly those of the bitmap pixels `(gx, gy)` whose atlas
coordinates `(x + gx, y + gy)` lie inside the atlas: a pixel that falls outside
is skipped, not written. -/
theorem copy_loop_is_memory_safe (b : Blit) (hx : 0 ≤ b.x) (hy : 0 ≤ b.y) :
    (∀ p ∈ copyLoop b,
        0 ≤ p.1 ∧ p.1 < 512 * 512 ∧ 0 ≤ p.2 ∧ p.2 < b.width * b.height) ∧
      (∀ p : Int × Int, p ∈ copyLoop b ↔
        ∃ gx gy : Nat, (gx : Int) < b.width ∧ (gy : Int) < b.height ∧
          b.x + (gx : Int) < 512 ∧ b.y + (gy : Int) < 512 ∧
          p = ((b.y + (gy : Int)) * 512 + (b.x + (gx : Int)),
                (gy : Int) * b.width + (gx : Int))) := by
  refine ⟨?_, fun p => mem_copyLoop_iff b p⟩
  intro p hp
  obtain ⟨gx, gy, h1, h2, h3, h4, rfl⟩ := mem_copyLoop b p hp
  simp only [atlasWidth, atlasHeight] at h3 h4 ⊢
  have hgy : (0 : Int) ≤ (gy : Int) := Int.ofNat_nonneg gy
  have hgx : (0 : Int) ≤ (gx : Int) := Int.ofNat_nonneg gx
  have hw : 0 ≤ b.width := by omega
  have hmul : ((gy : Int) + 1) * b.width ≤ b.height * b.width :=
    mul_le_mul_of_nonneg_right (by omega) hw
  have hnn : (0 : Int) ≤ (gy : Int) * b.width := mul_nonneg hgy hw
  refine ⟨by omega, by omega, by omega, ?_⟩
  have hexp : ((gy : Int) + 1) * b.width = (gy : Int) * b.width + b.width := by ring
  have hcomm : b.width * b.height = b.height * b.width := by ring
  rw [hcomm]
  omega

/-- C23 on a 600 x 2 bitmap placed at `(0, 38)` (the placement of `fontWide`):
all writes are in range, the pixel `(511, 1)` is written, the pixel `(512, 1)`,
whose atlas column would be 512, is not. -/
theorem copy_loop_is_memory_safe_witness :
    (0 : Int) ≤ 600 ∧ (0 : Int) ≤ 2 ∧
    (∀ p ∈ copyLoop ⟨32, 0, 38, 600, 2⟩,
        0 ≤ p.1 ∧ p.1 < 512 * 512 ∧ 0 ≤ p.2 ∧ p.2 < 600 * 2) ∧
      ((39 : Int) * 512 + 511, (1 : Int) * 600 + 511) ∈ copyLoop ⟨32, 0, 38, 600, 2⟩ ∧
      ((39 : Int) * 512 + 512, (1 : Int) * 600 + 512) ∉ copyLoop ⟨32, 0, 38, 600, 2⟩ := by
  have h := copy_loop_is_memory_safe ⟨32, 0, 38, 600, 2⟩ (by decide) (by decide)
  refine ⟨by decide, by decide, h.1, ?_, ?_⟩
  · rw [h.2]
    exact ⟨511, 1, by decide, by decide, by decide, by decide, by norm_num⟩
  · rw [h.2]
    rintro ⟨gx, gy, h1, h2, h3, h4, heq⟩
    simp only [Prod.mk.injEq] at heq
    dsimp only at h1 h2 h3 h4 heq
    omega

/-! ## Disjoint placements (C22) -/

theorem disjointInvariant_place (lineHeight : Int) (s : PackState) (nb : Blit) (g : GlyphTable)
    (hlh : 0 ≤ lineHeight) (hw : 0 ≤ nb.width) (hh : 0 ≤ nb.height)
    (hhl : nb.height ≤ lineHeight) (hs : disjointInvariant lineHeight s)
    (hpos : (nb.x = s.x ∧ nb.y = s.y) ∨ (nb.x = 0 ∧ nb.y = s.y + lineHeight)) :
    disjointInvariant lineHeight
      { x := nb.x + nb.width + 1, y := nb.y, glyphs := g, blits := s.blits ++ [nb] } := by
  obtain ⟨hx, hpw, hall⟩ := hs
  have hnbx : 0 ≤ nb.x := by
    rcases hpos with ⟨h, _⟩ | ⟨h, _⟩ <;> omega
  refine ⟨by simp only; omega, ?_, ?_⟩
  · simp only
    rw [List.pairwise_append]
    refine ⟨hpw, List.pairwise_singleton _ _, ?_⟩
    intro a ha b hb
    rw [List.mem_singleton] at hb
    subst hb
    obtain ⟨_, hah, hal, hloc⟩ := hall a ha
    intro px py hboth
    obtain ⟨⟨a1, a2, a3, a4⟩, ⟨b1, b2, b3, b4⟩⟩ := hboth
    rcases hpos with ⟨px1, py1⟩ | ⟨px1, py1⟩ <;> rcases hloc with ⟨l1, l2⟩ | l1 <;> omega
  · intro b hb
    simp only at hb ⊢
    rcases List.mem_append.1 hb with hb | hb
    · obtain ⟨hbx, hbh, hbl, hloc⟩ := hall b hb
      refine ⟨hbx, hbh, hbl, ?_⟩
      rcases hpos with ⟨px1, py1⟩ | ⟨px1, py1⟩ <;> rcases hloc with ⟨l1, l2⟩ | l1
      · exact Or.inl ⟨by omega, by omega⟩
      · exact Or.inr (by omega)
      · exact Or.inr (by omega)
      · exact Or.inr (by omega)
    · rw [List.mem_singleton] at hb
      subst hb
      exact ⟨hnbx, hh, hhl, Or.inl ⟨rfl, le_refl _⟩⟩

theorem packGlyph_disjointInvariant (lineHeight : Int) (scale : ℚ) (c : Nat) (advance : Int)
    (bitmap : Option GlyphBitmap) (s s1 : PackState) (hlh : 0 ≤ lineHeight)
    (hb : ∀ b, bitmap = some b → 0 ≤ b.width ∧ 0 ≤ b.height ∧ b.height ≤ lineHeight)
    (hs : disjointInvariant lineHeight s)
    (h : packGlyph lineHeight scale c advance bitmap s = (true, s1)) :
    disjointInvariant lineHeight s1 := by
  cases bitmap with
  | none =>
    rw [packGlyph_none] at h
    simp only [Prod.mk.injEq, true_and] at h
    subst h
    exact hs
  | some b =>
    obtain ⟨hw, hh, hhl⟩ := hb b rfl
    rw [packGlyph_some] at h
    split_ifs at h
    · simp at h
    · simp only [Prod.mk.injEq, true_and] at h
      subst h
      exact disjointInvariant_place lineHeight s ⟨c, 0, s.y + lineHeight, b.width, b.height⟩ _
        hlh hw hh hhl hs (Or.inr ⟨rfl, rfl⟩)
    · simp only [Prod.mk.injEq, true_and] at h
      subst h
      exact disjointInvariant_place lineHeight s ⟨c, s.x, s.y, b.width, b.height⟩ _
        hlh hw hh hhl hs (Or.inl ⟨rfl, rfl⟩)

theorem packLoop_disjoint (lineHeight : Int) (scale : ℚ) (hlh : 0 ≤ lineHeight)
    (inputs : List (Nat × Int × Option GlyphBitmap)) :
    ∀ s : PackState,
      (∀ inp ∈ inputs, ∀ b, inp.2.2 = some b →
        0 ≤ b.width ∧ 0 ≤ b.height ∧ b.height ≤ lineHeight) →
      disjointInvariant lineHeight s →
      (packLoop lineHeight scale inputs s).2.blits.Pairwise disjointRects ∧
        ∀ b ∈ (packLoop lineHeight scale inputs s).2.blits, 0 ≤ b.x := by
  induction inputs with
  | nil =>
    intro s _ hs
    exact ⟨hs.2.1, fun b hb => (hs.2.2 b hb).1⟩
  | cons input rest ih =>
    intro s hin hs
    obtain ⟨c, advance, bitmap⟩ := input
    unfold packLoop
    cases hpg : packGlyph lineHeight scale c advance bitmap s with
    | mk flag s1 =>
      cases flag
      · have hbl := packGlyph_false_blits lineHeight scale c advance bitmap s s1 hpg
        simp only [hbl]
        exact ⟨hs.2.1, fun b hb => (hs.2.2 b hb).1⟩
      · refine ih s1 (fun inp hinp => hin inp (List.mem_cons_of_mem _ hinp)) ?_
        exact packGlyph_disjointInvariant lineHeight scale c advance bitmap s s1 hlh
          (fun b hb => hin (c, advance, bitmap) (List.mem_cons_self _ _) b hb) hs hpg

/-- Two placements at `x >= 0` with disjoint rectangles are copied to
different atlas indices. -/
theorem copyLoop_disjoint (a b : Blit) (hax : 0 ≤ a.x) (hbx : 0 ≤ b.x)
    (hd : disjointRects a b) :
    ∀ p ∈ copyLoop a, ∀ q ∈ copyLoop b, p.1 ≠ q.1 := by
  intro p hp q hq heq
  obtain ⟨gx, gy, h1, h2, h3, h4, rfl⟩ := mem_copyLoop a p hp
  obtain ⟨kx, ky, k1, k2, k3, k4, rfl⟩ := mem_copyLoop b q hq
  simp only [atlasWidth, atlasHeight] at h3 h4 k3 k4 heq
  apply hd (a.x + (gx : Int)) (a.y + (gy : Int))
  refine ⟨⟨by omega, by omega, by omega, by omega⟩, by omega, by omega, by omega, by omega⟩

/-- C22. Placed glyphs never overlap: for every sequence of glyph bitmaps whose
heights satisfy `0 <= height <= lineHeight` (`lineHeight > 0`) and whose widths
are `>= 0`, the pixel rectangles `[x, x + width) x [y, y + height)` recorded by
the packing loop of `loadTTFFont` (started at the cursor `(0, 0)` with an empty
atlas) for any two distinct placed glyphs are disjoint; and the copy loops of
two distinct placed glyphs write to different atlas indices, so no pixel of a
glyph is overwritten by a later glyph. -/
theorem placed_glyphs_never_overlap (lineHeight : Int) (scale : ℚ)
    (inputs : List (Nat × Int × Option GlyphBitmap)) (glyphs : GlyphTable)
    (hlh : 0 < lineHeight)
    (hin : ∀ inp ∈ inputs, ∀ b, inp.2.2 = some b →
      0 ≤ b.width ∧ 0 ≤ b.height ∧ b.height ≤ lineHeight) :
    (packLoop lineHeight scale inputs
        { x := 0, y := 0, glyphs := glyphs, blits := [] }).2.blits.Pairwise disjointRects ∧
      (packLoop lineHeight scale inputs
        { x := 0, y := 0, glyphs := glyphs, blits := [] }).2.blits.Pairwise
          (fun a b => ∀ p ∈ copyLoop a, ∀ q ∈ copyLoop b, p.1 ≠ q.1) := by
  have hinv : disjointInvariant lineHeight { x := 0, y := 0, glyphs := glyphs, blits := [] } := by
    refine ⟨le_refl _, List.Pairwise.nil, ?_⟩
    intro b hb
    simp at hb
  obtain ⟨hpw, hx⟩ := packLoop_disjoint lineHeight scale (le_of_lt hlh) inputs _ hin hinv
  refine ⟨hpw, ?_⟩
  exact hpw.imp_of_mem (fun ha hb hd => copyLoop_disjoint _ _ (hx _ ha) (hx _ hb) hd)

/-- C22 on three bitmaps of sizes 300 x 30, 200 x 38 and 100 x 30 with row
height 38: they are placed at `(0, 0)`, `(301, 0)` and `(0, 38)`, and these
three rectangles are pairwise disjoint. -/
theorem placed_glyphs_never_overlap_witness :
    (0 : Int) < 38 ∧
      (packLoop 38 1
          [(65, 0, some ⟨300, 30, 0, 0⟩), (66, 0, some ⟨200, 38, 0, 0⟩),
           (67, 0, some ⟨100, 30, 0, 0⟩)]
          { x := 0, y := 0, glyphs := [], blits := [] }).2.blits
        = [⟨65, 0, 0, 300, 30⟩, ⟨66, 301, 0, 200, 38⟩, ⟨67, 0, 38, 100, 30⟩] ∧
      List.Pairwise disjointRects
        [⟨65, 0, 0, 300, 30⟩, ⟨66, 301, 0, 200, 38⟩, ⟨67, 0, 38, 100, 30⟩] := by
  have hloop : (packLoop 38 1
      [(65, 0, some ⟨300, 30, 0, 0⟩), (66, 0, some ⟨200, 38, 0, 0⟩),
       (67, 0, some ⟨100, 30, 0, 0⟩)]
      { x := 0, y := 0, glyphs := [], blits := [] }).2.blits
      = [⟨65, 0, 0, 300, 30⟩, ⟨66, 301, 0, 200, 38⟩, ⟨67, 0, 38, 100, 30⟩] := by decide
  have h := placed_glyphs_never_overlap 38 1
    [(65, 0, some ⟨300, 30, 0, 0⟩), (66, 0, some ⟨200, 38, 0, 0⟩),
     (67, 0, some ⟨100, 30, 0, 0⟩)] [] (by decide)
    (by
      intro inp hinp b hb
      simp only [List.mem_cons, List.mem_singleton, List.not_mem_nil, or_false] at hinp
      rcases hinp with rfl | rfl | rfl <;>
        (simp only [Option.some.injEq] at hb; subst hb; decide))
  have hpw := h.1
  rw [hloop] at hpw
  exact ⟨by decide, hloop, hpw⟩

/-! ## First success wins (C16) -/

theorem candidateLoop_none (rest : List (Option FontFile)) (renderer : TextRenderer) :
    candidateLoop (none :: rest) renderer = candidateLoop rest renderer := rfl

theorem candidateLoop_some_true (file : FontFile) (rest : List (Option FontFile))
    (renderer r : TextRenderer) (h : loadTTFFont file renderer 32 = (true, r)) :
    candidateLoop (some file :: rest) renderer = (true, r) := by
  show (match loadTTFFont file renderer 32 with
    | (true, r) => (true, r)
    | (false, r) => candidateLoop rest r) = (true, r)
  rw [h]

theorem candidateLoop_some_false (file : FontFile) (rest : List (Option FontFile))
    (renderer r : TextRenderer) (h : loadTTFFont file renderer 32 = (false, r)) :
    candidateLoop (some file :: rest) renderer = candidateLoop rest r := by
  show (match loadTTFFont file renderer 32 with
    | (true, r) => (true, r)
    | (false, r) => candidateLoop rest r) = candidateLoop rest r
  rw [h]

/-- Once the candidate loop has loaded a font from a first part of the list,
what follows in the list has no effect. -/
theorem candidateLoop_append_true (pre : List (Option FontFile)) :
    ∀ (renderer : TextRenderer) (rest : List (Option FontFile)),
      (candidateLoop pre renderer).1 = true →
        candidateLoop (pre ++ rest) renderer = candidateLoop pre renderer := by
  induction pre with
  | nil =>
    intro renderer rest h
    simp [candidateLoop] at h
  | cons cand pre1 ih =>
    intro renderer rest h
    cases cand with
    | none =>
      simp only [List.cons_append, candidateLoop] at h ⊢
      exact ih renderer rest h
    | some file =>
      simp only [List.cons_append]
      cases hl : loadTTFFont file renderer 32 with
      | mk flag r =>
        cases flag
        · rw [candidateLoop_some_false file pre1 renderer r hl] at h
          rw [candidateLoop_some_false file (pre1 ++ rest) renderer r hl,
            candidateLoop_some_false file pre1 renderer r hl]
          exact ih r rest h
        · rw [candidateLoop_some_true file (pre1 ++ rest) renderer r hl,
            candidateLoop_some_true file pre1 renderer r hl]

/-- While no font has been loaded, the candidate loop goes on with the rest of
the list, from the renderer the failed calls have left. -/
theorem candidateLoop_append_false (pre : List (Option FontFile)) :
    ∀ (renderer : TextRenderer) (rest : List (Option FontFile)),
      (candidateLoop pre renderer).1 = false →
        candidateLoop (pre ++ rest) renderer
          = candidateLoop rest (candidateLoop pre renderer).2 := by
  induction pre with
  | nil =>
    intro renderer rest _
    rfl
  | cons cand pre1 ih =>
    intro renderer rest h
    cases cand with
    | none =>
      simp only [List.cons_append, candidateLoop] at h ⊢
      exact ih renderer rest h
    | some file =>
      simp only [List.cons_append]
      cases hl : loadTTFFont file renderer 32 with
      | mk flag r =>
        cases flag
        · rw [candidateLoop_some_false file pre1 renderer r hl] at h
          rw [candidateLoop_some_false file (pre1 ++ rest) renderer r hl,
            candidateLoop_some_false file pre1 renderer r hl]
          exact ih r rest h
        · rw [candidateLoop_some_true file pre1 renderer r hl] at h
          simp at h

/-- The candidate loop has exactly the effect of its recorded calls: its flag
says whether one of them returned true, and its renderer is the one left by
making these calls, in order, and no other. -/
theorem candidateLoop_replay (candidates : List (Option FontFile)) :
    ∀ (pre : List (Option FontFile)) (renderer : TextRenderer),
      candidateLoop candidates renderer =
        ((candidateAttempts candidates pre.length renderer).any (fun a => a.2),
          replayLoads (pre ++ candidates)
            ((candidateAttempts candidates pre.length renderer).map (fun a => a.1))
            renderer) := by
  induction candidates with
  | nil =>
    intro pre renderer
    rfl
  | cons cand rest ih =>
    intro pre renderer
    have hassoc : pre ++ cand :: rest = (pre ++ [cand]) ++ rest := by simp
    have hlen : (pre ++ [cand]).length = pre.length + 1 := by simp
    cases cand with
    | none =>
      have h := ih (pre ++ [none]) renderer
      rw [hlen, ← hassoc] at h
      simp only [candidateLoop, candidateAttempts]
      exact h
    | some file =>
      have hidx : (pre ++ some file :: rest)[pre.length]? = some (some file) := by
        rw [List.getElem?_append_right (le_refl _)]
        simp
      unfold candidateLoop candidateAttempts
      cases hl : loadTTFFont file renderer 32 with
      | mk flag r =>
        cases flag
        · have h := ih (pre ++ [some file]) r
          rw [hlen, ← hassoc] at h
          simp only [List.any_cons, Bool.false_or, List.map_cons, replayLoads, hidx, hl]
          exact h
        · simp only [List.any_cons, List.any_nil, Bool.or_false, List.map_cons, List.map_nil,
            replayLoads, hidx, hl]

/-- C16. First success wins. For every ordered list of candidates and every
renderer: the candidate loop of `initTextRenderer` has exactly the effect of
the calls of `loadTTFFont` recorded for it (its renderer is the one left by
these calls, made in order, and no other; its flag says whether one returned
true); the recorded calls are the candidates whose file exists, taken in list
order and cut after the first one for which `loadTTFFont` returned true (each
call is on an existing file, the positions increase, no call follows a call
that returned true); whenever the list splits into `pre`, an existing `file`
and `post`, no font was loaded from `pre` and `loadTTFFont` returns true on
`file`, the result of `initTextRenderer` is the renderer of that call, whatever
`post` holds; and the fallback atlas is the font texture afterwards if and only
if no call returned true. -/
theorem first_success_wins (candidates : List (Option FontFile)) (renderer : TextRenderer) :
    candidateLoop candidates renderer =
        ((candidateAttempts candidates 0 renderer).any (fun a => a.2),
          replayLoads candidates
            ((candidateAttempts candidates 0 renderer).map (fun a => a.1)) renderer) ∧
      candidateAttempts candidates 0 renderer
        = upToFirstSuccess (existingCandidates candidates 0) ∧
      (∀ a ∈ candidateAttempts candidates 0 renderer,
        ∃ file, candidates[a.1]? = some (some file) ∧
          a.2 = (loadTTFFont file TextRenderer.fresh 32).1) ∧
      (candidateAttempts candidates 0 renderer).Pairwise (fun a b => a.1 < b.1) ∧
      (∀ (pre post : List (Nat × Bool)) (a : Nat × Bool),
        candidateAttempts candidates 0 renderer = pre ++ a :: post → a.2 = true →
          post = []) ∧
      (∀ (pre post : List (Option FontFile)) (file : FontFile),
        candidates = pre ++ some file :: post →
        (candidateLoop pre renderer).1 = false →
        (loadTTFFont file (candidateLoop pre renderer).2 32).1 = true →
          initTextRenderer candidates renderer
            = (loadTTFFont file (candidateLoop pre renderer).2 32).2) ∧
      ((initTextRenderer candidates renderer).fontTexture = FontTexture.fallbackAtlas ↔
        ∀ a ∈ candidateAttempts candidates 0 renderer, a.2 = false) := by
  have heq := candidateAttempts_eq candidates 0 renderer
  have hpre := upToFirstSuccess_prefix (existingCandidates candidates 0)
  obtain ⟨hmem, hpw⟩ := existingCandidates_spec candidates 0
  refine ⟨?_, heq, ?_, ?_, ?_, ?_, ?_⟩
  · have h := candidateLoop_replay candidates [] renderer
    simpa using h
  · intro a ha
    rw [heq] at ha
    obtain ⟨_, file, hfile, hflag⟩ := hmem a (hpre.subset ha)
    exact ⟨file, by simpa using hfile, hflag⟩
  · rw [heq]
    exact hpw.sublist hpre.sublist
  · intro pre post a h ha
    rw [heq] at h
    exact upToFirstSuccess_stops _ pre post a h ha
  · intro pre post file hsplit hfail hload
    have hstep : candidateLoop (some file :: post) (candidateLoop pre renderer).2
        = (true, (loadTTFFont file (candidateLoop pre renderer).2 32).2) := by
      apply candidateLoop_some_true
      exact Prod.ext hload rfl
    unfold initTextRenderer
    rw [hsplit, candidateLoop_append_false pre renderer _ hfail, hstep]
  · obtain ⟨hflag, htex⟩ := candidateLoop_flag candidates 0 renderer
    unfold initTextRenderer
    cases hl : candidateLoop candidates renderer with
    | mk flag r =>
      rw [hl] at hflag htex
      cases flag
      · simp only [createBitmapFontTexture, true_iff]
        intro a ha
        cases hb : a.2
        · rfl
        · exact absurd (hflag.2 ⟨a, ha, hb⟩) (by simp)
      · have htex1 : r.fontTexture ≠ FontTexture.fallbackAtlas := htex rfl
        constructor
        · intro h
          exact absurd h htex1
        · intro h
          obtain ⟨a, ha, hb⟩ := hflag.1 rfl
          rw [h a ha] at hb
          exact absurd hb (by simp)

/-- C16 on four candidate paths: the first file is absent, the second fails by
packing overflow (`fontA`), the third loads (`fontB`), the fourth would load
too (`fontWide`). The calls are on the candidates 1 and 2, in that order;
`initTextRenderer` ends with the renderer of the call on `fontB`, whose atlas
(the glyph of A) is the font texture, not that of `fontWide` and not the
fallback atlas. With `fontB` second and `fontA` third there is a single call,
on candidate 1. -/
theorem first_success_wins_witness :
    candidateAttempts
        [none, some (FontFile.font fontA), some (FontFile.font fontB),
          some (FontFile.font fontWide)] 0 TextRenderer.fresh = [(1, false), (2, true)] ∧
      (candidateLoop [none, some (FontFile.font fontA)] TextRenderer.fresh).1 = false ∧
      (loadTTFFont (FontFile.font fontB)
        (candidateLoop [none, some (FontFile.font fontA)] TextRenderer.fresh).2 32).1 = true ∧
      (loadTTFFont (FontFile.font fontWide) TextRenderer.fresh 32).1 = true ∧
      initTextRenderer
        [none, some (FontFile.font fontA), some (FontFile.font fontB),
          some (FontFile.font fontWide)] TextRenderer.fresh
        = (loadTTFFont (FontFile.font fontB)
            (candidateLoop [none, some (FontFile.font fontA)] TextRenderer.fresh).2 32).2 ∧
      (initTextRenderer
        [none, some (FontFile.font fontA), some (FontFile.font fontB),
          some (FontFile.font fontWide)] TextRenderer.fresh).fontTexture
        = FontTexture.outlineAtlas [⟨65, 0, 0, 16, 24⟩] ∧
      candidateAttempts [none, some (FontFile.font fontB), some (FontFile.font fontA)] 0
        TextRenderer.fresh = [(1, true)] := by
  have h := first_success_wins
    [none, some (FontFile.font fontA), some (FontFile.font fontB),
      some (FontFile.font fontWide)] TextRenderer.fresh
  have hA : (loadTTFFont (FontFile.font fontA) TextRenderer.fresh 32).1 = false := by
    rw [loadTTFFont_font, lineHeightOf_32]
    decide
  have hB : (loadTTFFont (FontFile.font fontB) TextRenderer.fresh 32).1 = true := by
    rw [loadTTFFont_font, lineHeightOf_32]
    decide
  have hW : (loadTTFFont (FontFile.font fontWide) TextRenderer.fresh 32).1 = true := by
    rw [loadTTFFont_font, lineHeightOf_32]
    decide
  have h1 : candidateAttempts
      [none, some (FontFile.font fontA), some (FontFile.font fontB),
        some (FontFile.font fontWide)] 0 TextRenderer.fresh = [(1, false), (2, true)] := by
    rw [h.2.1]
    simp only [existingCandidates, hA, hB, hW, upToFirstSuccess]
  have h2 : candidateAttempts [none, some (FontFile.font fontB), some (FontFile.font fontA)] 0
      TextRenderer.fresh = [(1, true)] := by
    rw [candidateAttempts_eq]
    simp only [existingCandidates, hA, hB, upToFirstSuccess]
  have hfail : (candidateLoop [none, some (FontFile.font fontA)] TextRenderer.fresh).1
      = false := by
    simp only [candidateLoop, loadTTFFont_font, lineHeightOf_32]
    decide
  have hload : (loadTTFFont (FontFile.font fontB)
      (candidateLoop [none, some (FontFile.font fontA)] TextRenderer.fresh).2 32).1 = true := by
    rw [loadTTFFont_flag _ _ TextRenderer.fresh]
    exact hB
  have hinit := h.2.2.2.2.2.1 [none, some (FontFile.font fontA)]
    [some (FontFile.font fontWide)] (FontFile.font fontB) rfl hfail hload
  refine ⟨h1, hfail, hload, hW, hinit, ?_, h2⟩
  rw [hinit]
  simp only [candidateLoop, loadTTFFont_font, lineHeightOf_32]
  decide
/-! ## A remark on the digits 2 and 9 -/

/-- The branch of `drawChar` for the digit 9 sets exactly the pixels that the
branch for the digit 2 sets: the two digits are drawn alike. -/
theorem digit_nine_is_drawn_as_two :
    (∀ p ∈ drawCharCalls 57, p ∈ drawCharCalls 50) ∧
      (∀ p ∈ drawCharCalls 50, p ∈ drawCharCalls 57) := by
  constructor
  · decide
  · decide

end UwpGl
